import Mathlib

/-!
Verification of the Helios core: the bounded-degree bond graph
(src/core/network.py), the derived node lifecycle (src/models/member.py,
src/models/bond.py), the propagation engine (src/core/rewards.py) and the
energy ledger conservation check (src/core/energy_exchange.py).

The Python code is shallowly embedded: SQLAlchemy tables become lists of
structures, object mutation becomes in-place replacement of the first
matching list element (mirroring the single ORM row a query returns),
`Decimal` quantities (fixed-point, 8 fractional digits) become integers
counting smallest representable units, float quantities of the energy ledger
become exact rationals, and `datetime.now` becomes an explicit integer
timestamp parameter measured in seconds.  Presentation-only columns
(display names, hashes, free-text reasons, ISO timestamps in result dicts)
are omitted.  The activity score, which the spec treats as a lookup supplied
by an external collaborator, is a function field of the database state.
-/

namespace Helios

/-! Configuration constants, from src/config.py (class HeliosConfig). -/

def FIELD_MAX_BONDS : Nat := 5

def FIELD_COOLDOWN_HOURS : Int := 24

def PROPAGATION_MAX_HOPS : Nat := 15

def PROPAGATION_DECAY_BASE : ℕ := 2

/-- Monetary quantities are fixed-point decimals with 8 fractional digits
(`Decimal` quantized to `0.00000001`); they are embedded as integers counting
smallest representable units, so 10.0 HLS is 10 * 10^8 units.  Truncating
multiplication by the weight `1 / base ^ hop` is then truncating division
(`Int.tdiv`, toward zero, exactly `ROUND_DOWN`) by `base ^ hop`. -/
def ACKNOWLEDGEMENT_AMOUNT : ℤ := 10 * 100000000

def SETTLEMENT_MIN_ACTIVITY_SCORE : ℚ := 10

def ABSORPTION_STABILITY_PERCENT : ℤ := 40

def ABSORPTION_LIQUIDITY_PERCENT : ℤ := 25

def ABSORPTION_INTELLIGENCE_PERCENT : ℤ := 20

def ABSORPTION_COMPLIANCE_PERCENT : ℤ := 15

def BOND_STATE_ACTIVE : String := "active"

def BOND_STATE_INACTIVE : String := "inactive"

/-- Cooldown window of `timedelta(hours=FIELD_COOLDOWN_HOURS)`, in seconds. -/
def cooldownSeconds : Int := FIELD_COOLDOWN_HOURS * 3600

/-- Replace the first element satisfying `p` by its image under `f`; the model
of mutating the single ORM object returned by `.filter_by(...).first()`. -/
def modifyFirst {α : Type} (p : α → Bool) (f : α → α) : List α → List α
  | [] => []
  | x :: xs => if p x then f x :: xs else x :: modifyFirst p f xs

/-! Data model, from src/models/member.py and src/models/bond.py. -/

/-- Row of the `members` table (presentation columns omitted). -/
structure Member where
  helios_id : String
  referrer_id : Option String := none
  node_state : String := "instantiated"
  bond_count : Nat := 0
  status : String := "active"
  deriving Repr, DecidableEq

/-- Member.update_node_state: recalculate node state based on bond count.
The source sets nothing when the count is 0 ("acknowledged and instantiated
are set during join flow"). -/
def Member.update_node_state (m : Member) : Member :=
  if m.bond_count ≥ 5 then { m with node_state := "stable" }
  else if m.bond_count ≥ 3 then { m with node_state := "propagating" }
  else if m.bond_count ≥ 1 then { m with node_state := "connected" }
  else m

/-- Row of the `bonds` table. -/
structure Bond where
  id : Nat
  node_a : String
  node_b : String
  state : String
  initiated_by : String
  created_at : Int
  activated_at : Option Int := none
  deactivated_at : Option Int := none
  deriving Repr, DecidableEq

/-- Bond.ordered_pair: always return (smaller, larger).  The comparison goes
through `.data`, which is definitionally what `<` on `String` means (code-point
lexicographic, as in Python) but is kernel-computable. -/
def Bond.ordered_pair (id_1 id_2 : String) : String × String :=
  if id_1.data < id_2.data then (id_1, id_2) else (id_2, id_1)

/-- Bond.involves: whether this bond involves a given node. -/
def Bond.involves (b : Bond) (helios_id : String) : Bool :=
  b.node_a == helios_id || b.node_b == helios_id

/-- Bond.peer_of: the other node in this bond (only ever applied to bonds
involving `helios_id`, where the source would otherwise raise). -/
def Bond.peer_of (b : Bond) (helios_id : String) : String :=
  if b.node_a == helios_id then b.node_b else b.node_a

/-- Database state seen by the field engine: the two tables plus the
activity-score lookup, which the spec treats as an external collaborator. -/
structure FieldDb where
  members : List Member
  bonds : List Bond
  activityScore : String → ℚ

/-- Domain-rule rejections raised as `ValueError` in FieldEngine.form_bond
and FieldEngine.dissolve_bond, one constructor per raise site. -/
inductive BondError where
  | notFound
  | selfReference
  | capacityExceeded
  | alreadyActive
  | cooldown
  deriving Repr, DecidableEq

namespace FieldEngine

/-- Predicate used by `filter_by(helios_id=x, status="active")`. -/
def isActiveMember (x : String) (m : Member) : Bool :=
  m.helios_id == x && m.status == "active"

/-- Increment a member's bond count and recompute its node state. -/
def bumpMember (x : String) (members : List Member) : List Member :=
  modifyFirst (isActiveMember x)
    (fun m => ({ m with bond_count := m.bond_count + 1 }).update_node_state) members

/-- Decrement a member's bond count (`max(0, n - 1)` is Nat subtraction) and
recompute its node state; the dissolve-side lookup has no status filter. -/
def dropMember (x : String) (members : List Member) : List Member :=
  modifyFirst (fun m => m.helios_id == x)
    (fun m => ({ m with bond_count := m.bond_count - 1 }).update_node_state) members

/-- Fold step selecting the bond with the latest `created_at`. -/
def pickLater (acc : Option Bond) (b : Bond) : Option Bond :=
  match acc with
  | none => some b
  | some c => if c.created_at < b.created_at then some b else some c

/-- Most recent bond record of any state involving `x`:
`query(Bond).filter(...).order_by(Bond.created_at.desc()).first()`. -/
def lastBondOf (db : FieldDb) (x : String) : Option Bond :=
  (db.bonds.filter (fun b => b.involves x)).foldl pickLater none

/-- Next autoincrement id for the `bonds` table. -/
def nextBondId (db : FieldDb) : Nat :=
  (db.bonds.map (fun b => b.id)).foldl max 0 + 1

/-- FieldEngine.form_bond, src/core/network.py lines 25-129.  Checks run in
source order: both lookups, self-reference, both capacity checks, the
existing-row branch (active → error, inactive → reactivate in place), then
cooldown, then insertion of a new ACTIVE row. -/
def form_bond (db : FieldDb) (now : Int) (initiator_id peer_id : String) :
    Except BondError FieldDb :=
  match db.members.find? (isActiveMember initiator_id) with
  | none => .error .notFound
  | some initiator =>
    match db.members.find? (isActiveMember peer_id) with
    | none => .error .notFound
    | some peer =>
      if initiator_id = peer_id then .error .selfReference
      else if FIELD_MAX_BONDS ≤ initiator.bond_count then .error .capacityExceeded
      else if FIELD_MAX_BONDS ≤ peer.bond_count then .error .capacityExceeded
      else
        let pair := Bond.ordered_pair initiator_id peer_id
        let isPairRow : Bond → Bool := fun b => b.node_a == pair.1 && b.node_b == pair.2
        let newMembers := bumpMember peer_id (bumpMember initiator_id db.members)
        let newBond : Bond :=
          { id := nextBondId db
            node_a := pair.1
            node_b := pair.2
            state := BOND_STATE_ACTIVE
            initiated_by := initiator_id
            created_at := now
            activated_at := some now
            deactivated_at := none }
        let freshRow : Unit → Except BondError FieldDb := fun _ =>
          match lastBondOf db initiator_id with
          | some last_bond =>
            if now - last_bond.created_at < cooldownSeconds then .error .cooldown
            else .ok { db with bonds := db.bonds ++ [newBond], members := newMembers }
          | none => .ok { db with bonds := db.bonds ++ [newBond], members := newMembers }
        match db.bonds.find? isPairRow with
        | some existing =>
          if existing.state = BOND_STATE_ACTIVE then .error .alreadyActive
          else if existing.state = BOND_STATE_INACTIVE then
            .ok { db with
              bonds := modifyFirst isPairRow
                (fun b => { b with
                            state := BOND_STATE_ACTIVE
                            activated_at := some now
                            deactivated_at := none }) db.bonds
              members := newMembers }
          else freshRow ()
        | none => freshRow ()

/-- FieldEngine.dissolve_bond, src/core/network.py lines 131-158.  Sets the
ACTIVE row of the canonical pair to INACTIVE and decrements both bond counts,
floored at 0 (Nat subtraction models `max(0, n - 1)`); member lookups here do
not filter on status. -/
def dissolve_bond (db : FieldDb) (now : Int) (node_id peer_id : String) :
    Except BondError FieldDb :=
  let pair := Bond.ordered_pair node_id peer_id
  let isActivePairRow : Bond → Bool := fun b =>
    b.node_a == pair.1 && b.node_b == pair.2 && b.state == BOND_STATE_ACTIVE
  match db.bonds.find? isActivePairRow with
  | none => .error .notFound
  | some _ =>
    let bonds' := modifyFirst isActivePairRow
      (fun b => { b with state := BOND_STATE_INACTIVE, deactivated_at := some now })
      db.bonds
    .ok { db with
          bonds := bonds'
          members := dropMember peer_id (dropMember node_id db.members) }

end FieldEngine

/-- Active bonds involving `x`: the query
`filter((node_a == x) | (node_b == x), state == ACTIVE).all()`. -/
def activeBondsOf (db : FieldDb) (x : String) : List Bond :=
  db.bonds.filter (fun b => b.involves x && b.state == BOND_STATE_ACTIVE)

/-- Membership test on the keys of the `visited` dict. -/
def visitedHas (visited : List (String × Nat)) (x : String) : Bool :=
  visited.any (fun p => p.1 == x)

/-- All node ids the database mentions; bounds how many BFS discoveries are
possible, used to size the fuel of the traversal loops. -/
def universeIds (db : FieldDb) : List String :=
  db.members.map (fun m => m.helios_id) ++ db.bonds.map (fun b => b.node_a)
    ++ db.bonds.map (fun b => b.node_b)

/-- Node entry of the get_field result (display name omitted). -/
structure FieldNode where
  id : String
  hops : Nat
  node_state : String
  bond_count : Nat
  activity : ℚ
  is_origin : Bool
  energy_weight : ℚ
  deriving Repr, DecidableEq

/-- Edge entry of the get_field result (`since` timestamp omitted). -/
structure FieldEdge where
  source : String
  target : String
  key : String × String
  state : String
  deriving Repr, DecidableEq

/-- Edge key `tuple(sorted([current_id, peer_id]))`. -/
def edgeKey (current_id peer_id : String) : String × String :=
  if peer_id.data < current_id.data then (peer_id, current_id) else (current_id, peer_id)

/-- Accumulator of the inner `for bond in bonds` loop of get_field. -/
structure ScanSt where
  visited : List (String × Nat)
  newq : List (String × Nat)
  edges : List FieldEdge

/-- Body of the inner bond loop of get_field: append the deduplicated edge,
then enqueue the peer if unvisited and within range. -/
def fieldScanStep (max_hops : Nat) (current_id : String) (hops : Nat)
    (st : ScanSt) (b : Bond) : ScanSt :=
  let peer_id := b.peer_of current_id
  let key := edgeKey current_id peer_id
  let edges' :=
    if st.edges.any (fun e => e.key == key) then st.edges
    else st.edges ++ [{ source := current_id, target := peer_id, key := key, state := b.state }]
  if !visitedHas st.visited peer_id && hops + 1 ≤ max_hops then
    { visited := st.visited ++ [(peer_id, hops + 1)]
      newq := st.newq ++ [(peer_id, hops + 1)]
      edges := edges' }
  else { st with edges := edges' }

/-- Outer `while queue` loop of get_field.  The explicit fuel only bounds the
number of pops; `get_field` passes enough fuel for the loop to run dry, and
every property proved below is preserved by early exhaustion as well. -/
def getFieldAux (db : FieldDb) (origin : String) (max_hops : Nat) :
    Nat → List (String × Nat) → List (String × Nat) → List FieldNode → List FieldEdge →
    List FieldNode × List FieldEdge
  | _, [], _, nodes, edges => (nodes, edges)
  | 0, _ :: _, _, nodes, edges => (nodes, edges)
  | fuel + 1, (current_id, hops) :: rest, visited, nodes, edges =>
    if max_hops < hops then getFieldAux db origin max_hops fuel rest visited nodes edges
    else
      let nodes' :=
        match db.members.find? (fun m => m.helios_id == current_id) with
        | some member =>
          nodes ++ [{ id := current_id
                      hops := hops
                      node_state := member.node_state
                      bond_count := member.bond_count
                      activity := db.activityScore current_id
                      is_origin := current_id == origin
                      energy_weight :=
                        if 0 < hops then 1 / (PROPAGATION_DECAY_BASE : ℚ) ^ hops else 1 }]
        | none => nodes
      let st := (activeBondsOf db current_id).foldl
        (fieldScanStep max_hops current_id hops) ⟨visited, [], edges⟩
      getFieldAux db origin max_hops fuel (rest ++ st.newq) st.visited nodes' st.edges

/-- Result of get_field. -/
structure FieldResult where
  origin : String
  max_hops : Nat
  total_nodes : Nat
  total_bonds : Nat
  nodes : List FieldNode
  edges : List FieldEdge
  deriving Repr, DecidableEq

/-- FieldEngine.get_field, src/core/network.py lines 161-230: BFS over ACTIVE
bonds from `helios_id`, collecting reachable nodes with hop distances and
decayed weights plus the deduplicated traversed edges. -/
def FieldEngine.get_field (db : FieldDb) (helios_id : String) (max_hops : Nat) :
    FieldResult :=
  let fuel := 2 * (universeIds db).length + 2
  let p := getFieldAux db helios_id max_hops fuel [(helios_id, 0)] [(helios_id, 0)] [] []
  { origin := helios_id
    max_hops := max_hops
    total_nodes := p.1.length
    total_bonds := p.2.length
    nodes := p.1
    edges := p.2 }

/-! Propagation engine, from src/core/rewards.py. -/

/-- Entry of the `distributions` list of a Distribution Result (the source
dict's "type" field is `dtype` here; free-text `reason` omitted). -/
structure Dist where
  recipient : String
  amount : ℤ
  dtype : String
  hop : Int
  weight : ℚ
  deriving Repr, DecidableEq

/-- Accumulator of the inner `for bond in bonds` loop of calculate_propagation. -/
structure PropSt where
  visited : List (String × Nat)
  newq : List (String × Nat)
  dists : List Dist
  total : ℤ
  deriving Repr, DecidableEq

namespace PropagationEngine

/-- Body of the inner bond loop of calculate_propagation (phase 2): discover
the peer, truncate its hop allocation, redirect it to the stability pool when
the peer's activity score is below threshold, and enqueue the peer; a peer
whose truncated allocation is not positive is marked visited and skipped. -/
def propStep (db : FieldDb) (propagation_energy : ℤ) (current_id : String)
    (hop : Nat) (st : PropSt) (b : Bond) : PropSt :=
  let peer_id := b.peer_of current_id
  let next_hop := hop + 1
  if visitedHas st.visited peer_id then st
  else if PROPAGATION_MAX_HOPS < next_hop then st
  else
    let visited' := st.visited ++ [(peer_id, next_hop)]
    let weight : ℚ := 1 / (PROPAGATION_DECAY_BASE : ℚ) ^ next_hop
    let hop_amount := Int.tdiv propagation_energy ((PROPAGATION_DECAY_BASE : ℤ) ^ next_hop)
    if hop_amount ≤ 0 then { st with visited := visited' }
    else
      let entry : Dist :=
        if SETTLEMENT_MIN_ACTIVITY_SCORE ≤ db.activityScore peer_id then
          { recipient := peer_id, amount := hop_amount, dtype := "propagation"
            hop := next_hop, weight := weight }
        else
          { recipient := "POOL:stability", amount := hop_amount, dtype := "absorption"
            hop := next_hop, weight := weight }
      { visited := visited'
        newq := st.newq ++ [(peer_id, next_hop)]
        dists := st.dists ++ [entry]
        total := st.total + hop_amount }

/-- Outer `while queue` loop of calculate_propagation phase 2, with the same
fuel convention as `getFieldAux`. -/
def propAux (db : FieldDb) (propagation_energy : ℤ) :
    Nat → List (String × Nat) → List (String × Nat) → List Dist → ℤ → List Dist × ℤ
  | _, [], _, dists, total => (dists, total)
  | 0, _ :: _, _, dists, total => (dists, total)
  | fuel + 1, (current_id, hop) :: rest, visited, dists, total =>
    let st := (activeBondsOf db current_id).foldl
      (propStep db propagation_energy current_id hop) ⟨visited, [], dists, total⟩
    propAux db propagation_energy fuel (rest ++ st.newq) st.visited st.dists st.total

/-- PropagationEngine._calculate_absorption, src/core/rewards.py lines
191-225: split the remainder 40/25/20/15 across the four pools, each share
truncated down, with any positive dust folded into the first (stability) pool. -/
def calculate_absorption (remainder : ℤ) : List Dist :=
  let pools : List (String × ℤ) :=
    [("POOL:stability", ABSORPTION_STABILITY_PERCENT),
     ("POOL:liquidity", ABSORPTION_LIQUIDITY_PERCENT),
     ("POOL:intelligence", ABSORPTION_INTELLIGENCE_PERCENT),
     ("POOL:compliance", ABSORPTION_COMPLIANCE_PERCENT)]
  let distributions : List Dist := pools.map (fun p =>
    { recipient := p.1, amount := Int.tdiv (remainder * p.2) 100
      dtype := "absorption", hop := -1, weight := 0 })
  let distributed := (distributions.map (fun d => d.amount)).sum
  let dust := remainder - distributed
  if 0 < dust then
    match distributions with
    | [] => []
    | d0 :: ds => { d0 with amount := d0.amount + dust } :: ds
  else distributions

/-- Result of calculate_propagation (timestamp and `verifiable` flag omitted). -/
structure PropResult where
  origin : String
  event_type : String
  energy_input : ℤ
  total_propagated : ℤ
  distribution_count : Nat
  max_hop_reached : Int
  distributions : List Dist
  deriving Repr, DecidableEq

/-- Model of `max((d["hop"] for d in distributions), default=0)`. -/
def maxHopReached (l : List Dist) : Int :=
  match l.map (fun d => d.hop) with
  | [] => 0
  | h :: t => t.foldl max h

/-- Stability-pool entry recorded by phase 1 when the initiator is missing or
insufficiently active. -/
def ackPoolEntry : Dist :=
  { recipient := "POOL:stability", amount := ACKNOWLEDGEMENT_AMOUNT
    dtype := "absorption", hop := 0, weight := 1 }

/-- Phase 1 (acknowledgement) entries of calculate_propagation. -/
def phase1 (db : FieldDb) (origin : Member) (event_type : String) : List Dist :=
  match event_type == "join", origin.referrer_id with
  | true, some r =>
    match db.members.find? (FieldEngine.isActiveMember r) with
    | some initiator =>
      if SETTLEMENT_MIN_ACTIVITY_SCORE ≤ db.activityScore initiator.helios_id then
        [{ recipient := r, amount := ACKNOWLEDGEMENT_AMOUNT
           dtype := "acknowledgement", hop := 0, weight := 1 }]
      else [ackPoolEntry]
    | none => [ackPoolEntry]
  | _, _ => []

/-- PropagationEngine.calculate_propagation, src/core/rewards.py lines 31-159:
acknowledgement phase, hop-weighted BFS phase, then absorption of any positive
remainder. -/
def calculate_propagation (db : FieldDb) (origin_id : String)
    (energy_amount : ℤ) (event_type : String) : Except BondError PropResult :=
  match db.members.find? (FieldEngine.isActiveMember origin_id) with
  | none => .error .notFound
  | some origin =>
    let ph1 := phase1 db origin event_type
    let total1 := (ph1.map (fun d => d.amount)).sum
    let pe0 := energy_amount - total1
    let propagation_energy := if pe0 ≤ 0 then energy_amount else pe0
    let fuel := 2 * (universeIds db).length + 2
    let p := propAux db propagation_energy fuel [(origin_id, 0)] [(origin_id, 0)] [] total1
    let remainder := energy_amount - p.2
    let finalDists :=
      if 0 < remainder then ph1 ++ p.1 ++ calculate_absorption remainder
      else ph1 ++ p.1
    let finalTotal := if 0 < remainder then p.2 + remainder else p.2
    .ok { origin := origin_id
          event_type := event_type
          energy_input := energy_amount
          total_propagated := finalTotal
          distribution_count := finalDists.length
          max_hop_reached := maxHopReached finalDists
          distributions := finalDists }

end PropagationEngine

/-- Row of the `rewards` table persisted by execute_propagation. -/
structure Reward where
  member_id : String
  source_member_id : String
  amount : ℤ
  reward_type : String
  activity_type : String
  status : String
  deriving Repr, DecidableEq

/-- Row of the `energy_events` ledger table (unused reference columns omitted). -/
structure EnergyEvent where
  event_type : String
  from_id : Option String
  to_id : Option String
  amount_he : ℚ
  deriving Repr, DecidableEq

def ENERGY_EVENT_IN : String := "ENERGY_IN"

def ENERGY_EVENT_ROUTE : String := "ENERGY_ROUTE"

def ENERGY_EVENT_STORE : String := "ENERGY_STORE"

def ENERGY_EVENT_POOL : String := "ENERGY_POOL"

def ENERGY_EVENT_BURN : String := "ENERGY_BURN"

def ENERGY_EVENT_REDEEM : String := "ENERGY_REDEEM"

def ENERGY_EVENT_CANCEL : String := "ENERGY_CANCEL"

/-- Combined persistent state touched by the engines: the field tables, the
rewards table written by execute_propagation, and the energy-event ledger read
by verify_conservation. -/
structure SystemDb where
  field : FieldDb
  rewards : List Reward
  energyEvents : List EnergyEvent

/-- PropagationEngine.execute_propagation, src/core/rewards.py lines 161-188:
run the identical calculation, then persist one settled Reward row per
distribution entry in a single commit; on error no row is written. -/
def PropagationEngine.execute_propagation (s : SystemDb) (origin_id : String)
    (energy_amount : ℤ) (event_type : String) :
    Except BondError (PropagationEngine.PropResult × SystemDb) :=
  match PropagationEngine.calculate_propagation s.field origin_id energy_amount event_type with
  | .error e => .error e
  | .ok res =>
    let newRewards := res.distributions.map (fun d =>
      { member_id := d.recipient
        source_member_id := origin_id
        amount := d.amount
        reward_type := d.dtype
        activity_type := event_type
        status := "settled" : Reward })
    .ok (res, { s with rewards := s.rewards ++ newRewards })

/-- Round half to even, the rounding of Python's `round` builtin. -/
def roundHalfEven (x : ℚ) : ℤ :=
  if Int.fract x < 1 / 2 then ⌊x⌋
  else if 1 / 2 < Int.fract x then ⌊x⌋ + 1
  else if Even ⌊x⌋ then ⌊x⌋ else ⌊x⌋ + 1

/-- Model of `round(x, 2)`. -/
def round2 (x : ℚ) : ℚ := (roundHalfEven (x * 100) : ℚ) / 100

/-- Model of `round(x, 4)`. -/
def round4 (x : ℚ) : ℚ := (roundHalfEven (x * 10000) : ℚ) / 10000

/-- Result of verify_conservation (timestamp omitted). -/
structure ConservationReport where
  total_in : ℚ
  total_routed : ℚ
  total_stored : ℚ
  total_pooled : ℚ
  total_burned : ℚ
  total_redeemed : ℚ
  total_cancelled : ℚ
  total_out : ℚ
  balance : ℚ
  balanced : Bool
  event_count : Nat
  deriving Repr, DecidableEq

/-- Sum of `amount_he` over the ledger events of one kind. -/
def totalFor (events : List EnergyEvent) (t : String) : ℚ :=
  ((events.filter (fun e => e.event_type == t)).map (fun e => e.amount_he)).sum

/-- EnergyExchange.verify_conservation, src/core/energy_exchange.py lines
238-278: per-kind totals, `total_out` excluding REDEEM and CANCEL, the signed
balance rounded to 4 decimals, and the `balanced` flag `abs(balance) < 0.01`. -/
def EnergyExchange.verify_conservation (events : List EnergyEvent) :
    ConservationReport :=
  let total_in := totalFor events ENERGY_EVENT_IN
  let total_routed := totalFor events ENERGY_EVENT_ROUTE
  let total_stored := totalFor events ENERGY_EVENT_STORE
  let total_pooled := totalFor events ENERGY_EVENT_POOL
  let total_burned := totalFor events ENERGY_EVENT_BURN
  let total_redeemed := totalFor events ENERGY_EVENT_REDEEM
  let total_cancelled := totalFor events ENERGY_EVENT_CANCEL
  let total_out := total_routed + total_stored + total_pooled + total_burned
  let balance := round4 (total_in - total_out)
  { total_in := round2 total_in
    total_routed := round2 total_routed
    total_stored := round2 total_stored
    total_pooled := round2 total_pooled
    total_burned := round2 total_burned
    total_redeemed := round2 total_redeemed
    total_cancelled := round2 total_cancelled
    total_out := round2 total_out
    balance := balance
    balanced := decide (|balance| < 1 / 100)
    event_count := events.length }

/-! Derived notions and concrete states used by the statements below. -/

/-- Sum of the `amount` column of a distribution list. -/
def sumAmounts (l : List Dist) : ℤ := (l.map (fun d => d.amount)).sum

/-- A bond-graph mutation with its explicit call time. -/
inductive FieldOp where
  | form (now : Int) (a b : String)
  | dissolve (now : Int) (a b : String)

/-- Apply one mutation; a rejected call leaves the state unchanged. -/
def applyOp (db : FieldDb) : FieldOp → FieldDb
  | .form now a b =>
    match FieldEngine.form_bond db now a b with
    | .ok db' => db'
    | .error _ => db
  | .dissolve now a b =>
    match FieldEngine.dissolve_bond db now a b with
    | .ok db' => db'
    | .error _ => db

/-- Run a sequence of bond-graph mutations. -/
def runOps (db : FieldDb) (ops : List FieldOp) : FieldDb := ops.foldl applyOp db

/-- The state Member.update_node_state assigns to a positive bond count. -/
def stateOfCount (c : Nat) : String :=
  if c ≥ 5 then "stable" else if c ≥ 3 then "propagating" else "connected"

/-- Number of ACTIVE bond rows involving `x`. -/
def activeDegree (db : FieldDb) (x : String) : Nat :=
  (activeBondsOf db x).length

/-- Shorthand member constructor for the concrete states below. -/
def mkMember (i : String) (c : Nat) (st : String) : Member :=
  { helios_id := i, bond_count := c, node_state := st }

/-- Shorthand active-status bond constructor for the concrete states below. -/
def mkBond (i : Nat) (a b : String) (st : String) (t : Int) : Bond :=
  { id := i, node_a := a, node_b := b, state := st, initiated_by := a, created_at := t }

/-- Origin with three ACTIVE bonds, every node fully active. -/
def denseDb : FieldDb :=
  { members := [mkMember "O" 3 "propagating", mkMember "P1" 1 "connected",
                mkMember "P2" 1 "connected", mkMember "P3" 1 "connected"]
    bonds := [mkBond 1 "O" "P1" "active" 0, mkBond 2 "O" "P2" "active" 0,
              mkBond 3 "O" "P3" "active" 0]
    activityScore := fun _ => 50 }

/-- A single registered node with no bonds. -/
def isolatedDb : FieldDb :=
  { members := [mkMember "O" 0 "instantiated"]
    bonds := []
    activityScore := fun _ => 50 }

/-- Chain O - A - B where only A is below the activity threshold. -/
def chainDb : FieldDb :=
  { members := [mkMember "O" 1 "connected", mkMember "A" 2 "connected",
                mkMember "B" 1 "connected"]
    bonds := [mkBond 1 "A" "O" "active" 0, mkBond 2 "A" "B" "active" 0]
    activityScore := fun i => if i = "A" then 0 else 50 }

/-- X bonded Y at time 0; Z is free; used for the cooldown examples. -/
def cooldownDb : FieldDb :=
  { members := [mkMember "X" 1 "connected", mkMember "Y" 1 "connected",
                mkMember "Z" 0 "instantiated"]
    bonds := [mkBond 1 "X" "Y" "active" 0]
    activityScore := fun _ => 0 }

/-- A and B with a dormant (INACTIVE) bond row created at time 0. -/
def reactivateDb : FieldDb :=
  { members := [mkMember "A" 0 "connected", mkMember "B" 0 "connected"]
    bonds := [mkBond 1 "A" "B" "inactive" 0]
    activityScore := fun _ => 0 }

/-- System state over the isolated origin with an empty ledger. -/
def isolatedSystem : SystemDb :=
  { field := isolatedDb, rewards := [], energyEvents := [] }

/-- The members after dissolving the X - Y bond of `cooldownDb`, or `[]` if
the dissolution were rejected. -/
def dissolvedMembers : List Member :=
  match FieldEngine.dissolve_bond cooldownDb 10 "X" "Y" with
  | .ok db' => db'.members
  | .error _ => []

/-- The Distribution Result of running the propagation from the isolated
origin with quantity 100: everything goes to absorption, 40/25/20/15. -/
def isolatedRunResult : PropagationEngine.PropResult :=
  { origin := "O"
    event_type := "transfer"
    energy_input := 100
    total_propagated := 100
    distribution_count := 4
    max_hop_reached := -1
    distributions :=
      [{ recipient := "POOL:stability", amount := 40, dtype := "absorption", hop := -1, weight := 0 },
       { recipient := "POOL:liquidity", amount := 25, dtype := "absorption", hop := -1, weight := 0 },
       { recipient := "POOL:intelligence", amount := 20, dtype := "absorption", hop := -1, weight := 0 },
       { recipient := "POOL:compliance", amount := 15, dtype := "absorption", hop := -1, weight := 0 }] }

/-- The system state after executing that propagation: four settled rewards,
the energy-event ledger untouched. -/
def isolatedRunSystem : SystemDb :=
  { field := isolatedDb
    rewards :=
      [{ member_id := "POOL:stability", source_member_id := "O", amount := 40,
         reward_type := "absorption", activity_type := "transfer", status := "settled" },
       { member_id := "POOL:liquidity", source_member_id := "O", amount := 25,
         reward_type := "absorption", activity_type := "transfer", status := "settled" },
       { member_id := "POOL:intelligence", source_member_id := "O", amount := 20,
         reward_type := "absorption", activity_type := "transfer", status := "settled" },
       { member_id := "POOL:compliance", source_member_id := "O", amount := 15,
         reward_type := "absorption", activity_type := "transfer", status := "settled" }]
    energyEvents := [] }

/-! Arithmetic facts about the fixed-point truncation. -/

theorem tdiv_part_bounds (r p : ℤ) (hr : 0 ≤ r) (hp : 0 ≤ p) :
    (r * p).tdiv 100 * 100 ≤ r * p ∧ 0 ≤ (r * p).tdiv 100 := by
  have hnn : 0 ≤ r * p := mul_nonneg hr hp
  rw [Int.tdiv_eq_ediv hnn (by norm_num)]
  exact ⟨Int.ediv_mul_le _ (by norm_num), Int.ediv_nonneg hnn (by norm_num)⟩

/-- Sum of the four absorption-pool allocations, dust included, is exactly the
remainder they were computed from. -/
theorem absorption_sum (r : ℤ) (hr : 0 ≤ r) :
    sumAmounts (PropagationEngine.calculate_absorption r) = r := by
  obtain ⟨b40, n40⟩ := tdiv_part_bounds r 40 hr (by norm_num)
  obtain ⟨b25, n25⟩ := tdiv_part_bounds r 25 hr (by norm_num)
  obtain ⟨b20, n20⟩ := tdiv_part_bounds r 20 hr (by norm_num)
  obtain ⟨b15, n15⟩ := tdiv_part_bounds r 15 hr (by norm_num)
  simp only [PropagationEngine.calculate_absorption, sumAmounts,
    ABSORPTION_STABILITY_PERCENT, ABSORPTION_LIQUIDITY_PERCENT,
    ABSORPTION_INTELLIGENCE_PERCENT, ABSORPTION_COMPLIANCE_PERCENT,
    List.map_cons, List.map_nil, List.sum_cons, List.sum_nil]
  split
  · simp only [List.map_cons, List.map_nil, List.sum_cons, List.sum_nil]
    ring
  · rename_i hdust
    push_neg at hdust
    have : (r * 40).tdiv 100 + ((r * 25).tdiv 100 +
        ((r * 20).tdiv 100 + ((r * 15).tdiv 100 + 0))) = r := by linarith
    simpa using this

/-- C3: for every positive remainder left after phases 1-2, the absorption
phase produces exactly four pool allocations in the fixed 40/25/20/15 split,
each truncated down to the smallest unit, with all rounding dust added to the
first (stability) pool, so that the four amounts sum exactly to the remainder. -/
theorem claim_C3 (r : ℤ) (hr : 0 < r) :
    (PropagationEngine.calculate_absorption r).map (fun d => d.recipient) =
      ["POOL:stability", "POOL:liquidity", "POOL:intelligence", "POOL:compliance"] ∧
    (PropagationEngine.calculate_absorption r).map (fun d => d.amount) =
      [(r * 40).tdiv 100 +
         (r - ((r * 40).tdiv 100 + (r * 25).tdiv 100 +
               (r * 20).tdiv 100 + (r * 15).tdiv 100)),
       (r * 25).tdiv 100, (r * 20).tdiv 100, (r * 15).tdiv 100] ∧
    sumAmounts (PropagationEngine.calculate_absorption r) = r := by
  have hr' := le_of_lt hr
  obtain ⟨b40, n40⟩ := tdiv_part_bounds r 40 hr' (by norm_num)
  obtain ⟨b25, n25⟩ := tdiv_part_bounds r 25 hr' (by norm_num)
  obtain ⟨b20, n20⟩ := tdiv_part_bounds r 20 hr' (by norm_num)
  obtain ⟨b15, n15⟩ := tdiv_part_bounds r 15 hr' (by norm_num)
  refine ⟨?_, ?_, absorption_sum r hr'⟩
  · simp only [PropagationEngine.calculate_absorption,
      ABSORPTION_STABILITY_PERCENT, ABSORPTION_LIQUIDITY_PERCENT,
      ABSORPTION_INTELLIGENCE_PERCENT, ABSORPTION_COMPLIANCE_PERCENT,
      List.map_cons, List.map_nil, List.sum_cons, List.sum_nil]
    split <;> simp
  · simp only [PropagationEngine.calculate_absorption,
      ABSORPTION_STABILITY_PERCENT, ABSORPTION_LIQUIDITY_PERCENT,
      ABSORPTION_INTELLIGENCE_PERCENT, ABSORPTION_COMPLIANCE_PERCENT,
      List.map_cons, List.map_nil, List.sum_cons, List.sum_nil]
    split
    · rename_i hdust
      simp only [List.map_cons, List.map_nil, List.cons.injEq, and_true]
      ring
    · rename_i hdust
      push_neg at hdust
      simp only [List.map_cons, List.map_nil, List.cons.injEq, and_true]
      linarith

/-- Witness for C3 at remainder 100: amounts 40/25/20/15 summing to 100. -/
theorem claim_C3_witness :
    (PropagationEngine.calculate_absorption 100).map (fun d => d.amount) =
      [40, 25, 20, 15] ∧
    sumAmounts (PropagationEngine.calculate_absorption 100) = 100 := by
  have h := claim_C3 100 (by norm_num)
  refine ⟨?_, h.2.2⟩
  rw [h.2.1]
  decide

/-! Facts about round-half-even and the conservation check. -/

theorem roundHalfEven_le (x : ℚ) : (roundHalfEven x : ℚ) ≤ x + 1 / 2 := by
  have hfr : x - ⌊x⌋ = Int.fract x := Int.self_sub_floor x
  have h0 := Int.fract_nonneg x
  have h1 := Int.fract_lt_one x
  unfold roundHalfEven
  split_ifs <;> push_cast <;> linarith

theorem roundHalfEven_ge (x : ℚ) : x - 1 / 2 ≤ (roundHalfEven x : ℚ) := by
  have hfr : x - ⌊x⌋ = Int.fract x := Int.self_sub_floor x
  have h0 := Int.fract_nonneg x
  have h1 := Int.fract_lt_one x
  unfold roundHalfEven
  split_ifs <;> push_cast <;> linarith

theorem roundHalfEven_ge_hundred (x : ℚ) (h : 199 / 2 ≤ x) :
    100 ≤ roundHalfEven x := by
  rcases eq_or_lt_of_le h with heq | hlt
  · rw [← heq]
    norm_num [roundHalfEven, Int.fract, Int.even_iff]
  · have hb := roundHalfEven_ge x
    have h99 : (99 : ℚ) < (roundHalfEven x : ℚ) := by linarith
    have : (99 : ℤ) < roundHalfEven x := by exact_mod_cast h99
    omega

theorem roundHalfEven_le_neg_hundred (x : ℚ) (h : x ≤ -(199 / 2)) :
    roundHalfEven x ≤ -100 := by
  rcases eq_or_lt_of_le h with heq | hlt
  · rw [heq]
    norm_num [roundHalfEven, Int.fract, Int.even_iff]
  · have hb := roundHalfEven_le x
    have h99 : (roundHalfEven x : ℚ) < -99 := by linarith
    have : roundHalfEven x < (-99 : ℤ) := by exact_mod_cast h99
    omega

/-- The rounded-then-compared balance check of verify_conservation is
equivalent to a strict tolerance of 0.00995 on the raw balance. -/
theorem abs_round4_lt_iff (d : ℚ) : |round4 d| < 1 / 100 ↔ |d| < 199 / 20000 := by
  unfold round4
  constructor
  · intro h
    by_contra hc
    push_neg at hc
    rcases le_abs.mp hc with hge | hge
    · have h100 : 100 ≤ roundHalfEven (d * 10000) :=
        roundHalfEven_ge_hundred _ (by linarith)
      have hcast : ((100 : ℤ) : ℚ) ≤ (roundHalfEven (d * 10000) : ℚ) := by
        exact_mod_cast h100
      push_cast at hcast
      have hnn : (0 : ℚ) ≤ (roundHalfEven (d * 10000) : ℚ) / 10000 := by linarith
      rw [abs_of_nonneg hnn] at h
      linarith
    · have h100 : roundHalfEven (d * 10000) ≤ -100 :=
        roundHalfEven_le_neg_hundred _ (by linarith)
      have hcast : (roundHalfEven (d * 10000) : ℚ) ≤ ((-100 : ℤ) : ℚ) := by
        exact_mod_cast h100
      push_cast at hcast
      have hnp : (roundHalfEven (d * 10000) : ℚ) / 10000 ≤ 0 := by linarith
      rw [abs_of_nonpos hnp] at h
      linarith
  · intro h
    rcases abs_lt.mp h with ⟨hl, hr⟩
    have hub := roundHalfEven_le (d * 10000)
    have hlb := roundHalfEven_ge (d * 10000)
    have habs : |(roundHalfEven (d * 10000) : ℚ)| < 100 :=
      abs_lt.mpr ⟨by linarith, by linarith⟩
    have : |(roundHalfEven (d * 10000) : ℚ) / 10000| =
        |(roundHalfEven (d * 10000) : ℚ)| / 10000 := by
      rw [abs_div]
      norm_num
    rw [this]
    linarith

/-- C8 (amended): verify_conservation returns the per-kind totals (rounded to
2 decimals for display), the signed balance `totalIn - totalOut` rounded to 4
decimals, with REDEEM and CANCEL totals reported separately and excluded from
`totalOut`; `balanced` is true exactly when the raw balance is strictly within
0.00995 — the effect of rounding the balance to 4 decimals before comparing
its absolute value with the 0.01 epsilon. -/
theorem claim_C8 (events : List EnergyEvent) :
    ((EnergyExchange.verify_conservation events).balanced = true ↔
      |totalFor events ENERGY_EVENT_IN -
        (totalFor events ENERGY_EVENT_ROUTE + totalFor events ENERGY_EVENT_STORE +
         totalFor events ENERGY_EVENT_POOL + totalFor events ENERGY_EVENT_BURN)| <
        199 / 20000) ∧
    (EnergyExchange.verify_conservation events).balance =
      round4 (totalFor events ENERGY_EVENT_IN -
        (totalFor events ENERGY_EVENT_ROUTE + totalFor events ENERGY_EVENT_STORE +
         totalFor events ENERGY_EVENT_POOL + totalFor events ENERGY_EVENT_BURN)) ∧
    (EnergyExchange.verify_conservation events).total_in =
      round2 (totalFor events ENERGY_EVENT_IN) ∧
    (EnergyExchange.verify_conservation events).total_routed =
      round2 (totalFor events ENERGY_EVENT_ROUTE) ∧
    (EnergyExchange.verify_conservation events).total_stored =
      round2 (totalFor events ENERGY_EVENT_STORE) ∧
    (EnergyExchange.verify_conservation events).total_pooled =
      round2 (totalFor events ENERGY_EVENT_POOL) ∧
    (EnergyExchange.verify_conservation events).total_burned =
      round2 (totalFor events ENERGY_EVENT_BURN) ∧
    (EnergyExchange.verify_conservation events).total_redeemed =
      round2 (totalFor events ENERGY_EVENT_REDEEM) ∧
    (EnergyExchange.verify_conservation events).total_cancelled =
      round2 (totalFor events ENERGY_EVENT_CANCEL) ∧
    (EnergyExchange.verify_conservation events).total_out =
      round2 (totalFor events ENERGY_EVENT_ROUTE + totalFor events ENERGY_EVENT_STORE +
         totalFor events ENERGY_EVENT_POOL + totalFor events ENERGY_EVENT_BURN) ∧
    (EnergyExchange.verify_conservation events).event_count = events.length := by
  refine ⟨?_, rfl, rfl, rfl, rfl, rfl, rfl, rfl, rfl, rfl, rfl⟩
  show decide _ = true ↔ _
  rw [decide_eq_true_eq]
  exact abs_round4_lt_iff _

/-- Counterexample for C8 as frozen: with a single inflow of 0.00996, the raw
imbalance 0.00996 is strictly below the 0.01 epsilon, yet the code rounds the
balance to 4 decimals (0.0100) first and reports balanced = false. -/
theorem claim_C8_counterexample :
    |totalFor [{ event_type := "ENERGY_IN", from_id := none, to_id := none,
                 amount_he := 249 / 25000 : EnergyEvent }] ENERGY_EVENT_IN -
      (totalFor [{ event_type := "ENERGY_IN", from_id := none, to_id := none,
                   amount_he := 249 / 25000 : EnergyEvent }] ENERGY_EVENT_ROUTE +
       totalFor [{ event_type := "ENERGY_IN", from_id := none, to_id := none,
                   amount_he := 249 / 25000 : EnergyEvent }] ENERGY_EVENT_STORE +
       totalFor [{ event_type := "ENERGY_IN", from_id := none, to_id := none,
                   amount_he := 249 / 25000 : EnergyEvent }] ENERGY_EVENT_POOL +
       totalFor [{ event_type := "ENERGY_IN", from_id := none, to_id := none,
                   amount_he := 249 / 25000 : EnergyEvent }] ENERGY_EVENT_BURN)| <
      1 / 100 ∧
    (EnergyExchange.verify_conservation
      [{ event_type := "ENERGY_IN", from_id := none, to_id := none,
         amount_he := 249 / 25000 : EnergyEvent }]).balanced = false := by
  constructor
  · simp only [totalFor, ENERGY_EVENT_IN, ENERGY_EVENT_ROUTE, ENERGY_EVENT_STORE,
      ENERGY_EVENT_POOL, ENERGY_EVENT_BURN, List.filter, List.map, List.sum_cons,
      List.sum_nil, String.reduceEq, beq_self_eq_true]
    rw [abs_of_nonneg (by norm_num)]
    norm_num
  · simp only [EnergyExchange.verify_conservation, totalFor, ENERGY_EVENT_IN,
      ENERGY_EVENT_ROUTE, ENERGY_EVENT_STORE, ENERGY_EVENT_POOL, ENERGY_EVENT_BURN,
      ENERGY_EVENT_REDEEM, ENERGY_EVENT_CANCEL, List.filter, List.map, List.sum_cons,
      List.sum_nil, String.reduceEq, beq_self_eq_true, List.length_cons, List.length_nil,
      decide_eq_false_iff_not, not_lt]
    have : round4 (249 / 25000 + 0 - (0 + 0 + 0 + 0)) = 1 / 100 := by
      norm_num [round4, roundHalfEven, Int.fract]
    rw [this]
    exact le_abs_self _


/-- C9: execute_propagation performs the identical distribution computation as
the preview (calculate_propagation), persists exactly one settled Reward row
per allocation in a single all-or-none commit (on error, no state at all is
produced), leaves the energy-event ledger untouched, and therefore a
verify_conservation call that reported balanced beforehand still reports
balanced afterwards. -/
theorem claim_C9 (s : SystemDb) (origin_id : String) (energy_amount : ℤ)
    (event_type : String) (res : PropagationEngine.PropResult) (s' : SystemDb)
    (h : PropagationEngine.execute_propagation s origin_id energy_amount event_type =
      .ok (res, s')) :
    PropagationEngine.calculate_propagation s.field origin_id energy_amount event_type =
      .ok res ∧
    s'.rewards = s.rewards ++ res.distributions.map (fun d =>
      { member_id := d.recipient
        source_member_id := origin_id
        amount := d.amount
        reward_type := d.dtype
        activity_type := event_type
        status := "settled" : Reward }) ∧
    s'.rewards.length = s.rewards.length + res.distributions.length ∧
    s'.energyEvents = s.energyEvents ∧
    s'.field = s.field ∧
    ((EnergyExchange.verify_conservation s.energyEvents).balanced = true →
      (EnergyExchange.verify_conservation s'.energyEvents).balanced = true) := by
  unfold PropagationEngine.execute_propagation at h
  cases hc : PropagationEngine.calculate_propagation s.field origin_id energy_amount
      event_type with
  | error e => rw [hc] at h; exact absurd h (by simp)
  | ok c =>
    rw [hc] at h
    simp only [Except.ok.injEq, Prod.mk.injEq] at h
    obtain ⟨hres, hs'⟩ := h
    subst hres
    subst hs'
    refine ⟨rfl, rfl, by simp, rfl, rfl, fun hb => hb⟩

/-- Witness for C9: executing on the isolated origin produces the four
absorption rewards, touches no energy events, and conservation still holds. -/
theorem claim_C9_witness :
    (EnergyExchange.verify_conservation isolatedSystem.energyEvents).balanced = true ∧
    (EnergyExchange.verify_conservation isolatedRunSystem.energyEvents).balanced = true ∧
    isolatedRunSystem.rewards.length = isolatedSystem.rewards.length + 4 := by
  have hbefore : (EnergyExchange.verify_conservation isolatedSystem.energyEvents).balanced
      = true := by
    simp only [isolatedSystem, EnergyExchange.verify_conservation, totalFor,
      List.filter_nil, List.map_nil, List.sum_nil, List.length_nil]
    norm_num [round4, roundHalfEven, Int.fract]
  have hx : PropagationEngine.execute_propagation isolatedSystem "O" 100 "transfer" =
      .ok (isolatedRunResult, isolatedRunSystem) := rfl
  have h := claim_C9 isolatedSystem "O" 100 "transfer" isolatedRunResult
    isolatedRunSystem hx
  exact ⟨hbefore, h.2.2.2.2.2 hbefore, by rw [h.2.2.1]; rfl⟩

/-- C10: in the phase-2 BFS step, a newly discovered peer below the activity
threshold still consumes its full truncated hop allocation (recorded with
recipient POOL:stability) and is still enqueued, so propagation continues
through it; a newly discovered peer whose truncated allocation is zero is
marked visited without being enqueued and consumes nothing.  The concrete run
on the chain O - A - B (A inactive) shows B still paid at hop 2. -/
theorem claim_C10 :
    (∀ (db : FieldDb) (R : ℤ) (cur : String) (hop : Nat) (st : PropSt) (b : Bond),
      visitedHas st.visited (b.peer_of cur) = false →
      hop + 1 ≤ PROPAGATION_MAX_HOPS →
      db.activityScore (b.peer_of cur) < SETTLEMENT_MIN_ACTIVITY_SCORE →
      0 < R.tdiv ((PROPAGATION_DECAY_BASE : ℤ) ^ (hop + 1)) →
      PropagationEngine.propStep db R cur hop st b =
        { visited := st.visited ++ [(b.peer_of cur, hop + 1)]
          newq := st.newq ++ [(b.peer_of cur, hop + 1)]
          dists := st.dists ++
            [{ recipient := "POOL:stability"
               amount := R.tdiv ((PROPAGATION_DECAY_BASE : ℤ) ^ (hop + 1))
               dtype := "absorption"
               hop := hop + 1
               weight := 1 / (PROPAGATION_DECAY_BASE : ℚ) ^ (hop + 1) }]
          total := st.total + R.tdiv ((PROPAGATION_DECAY_BASE : ℤ) ^ (hop + 1)) }) ∧
    (∀ (db : FieldDb) (R : ℤ) (cur : String) (hop : Nat) (st : PropSt) (b : Bond),
      visitedHas st.visited (b.peer_of cur) = false →
      hop + 1 ≤ PROPAGATION_MAX_HOPS →
      R.tdiv ((PROPAGATION_DECAY_BASE : ℤ) ^ (hop + 1)) ≤ 0 →
      PropagationEngine.propStep db R cur hop st b =
        { st with visited := st.visited ++ [(b.peer_of cur, hop + 1)] }) ∧
    (PropagationEngine.calculate_propagation chainDb "O" 100 "transfer").toOption.map
        (fun r => r.distributions.map (fun d => (d.recipient, d.amount, d.hop))) =
      some [("POOL:stability", 50, 1), ("B", 25, 2), ("POOL:stability", 11, -1),
            ("POOL:liquidity", 6, -1), ("POOL:intelligence", 5, -1),
            ("POOL:compliance", 3, -1)] := by
  refine ⟨?_, ?_, by decide⟩
  · intro db R cur hop st b hv hh hscore hamt
    simp only [PropagationEngine.propStep, hv, Bool.false_eq_true, if_false,
      not_lt.mpr hh, if_neg (not_lt.mpr hh), if_neg (not_le.mpr hamt),
      if_neg (not_le.mpr hscore)]
    norm_cast
  · intro db R cur hop st b hv hh hamt
    simp only [PropagationEngine.propStep, hv, Bool.false_eq_true, if_false,
      if_neg (not_lt.mpr hh), if_pos hamt]

/-- Witness for C10: the first discovery of the low-activity node A from the
chain's origin consumes 50 units into the stability pool and enqueues A. -/
theorem claim_C10_witness :
    PropagationEngine.propStep chainDb 100 "O" 0
      { visited := [("O", 0)], newq := [], dists := [], total := 0 }
      (mkBond 1 "A" "O" "active" 0) =
    { visited := [("O", 0), ("A", 1)]
      newq := [("A", 1)]
      dists := [{ recipient := "POOL:stability", amount := 50, dtype := "absorption",
                  hop := 1, weight := 1 / 2 }]
      total := 50 } := by
  have h := claim_C10.1 chainDb 100 "O" 0
    { visited := [("O", 0)], newq := [], dists := [], total := 0 }
    (mkBond 1 "A" "O" "active" 0)
    (by decide) (by decide)
    (by simp [chainDb, Bond.peer_of, mkBond]; norm_num [SETTLEMENT_MIN_ACTIVITY_SCORE])
    (by decide)
  rw [h]
  simp [mkBond, Bond.peer_of, PROPAGATION_DECAY_BASE]
  decide

/-! Conservation accounting through the phase-2 BFS. -/

/-- One BFS step changes the recorded amounts and the running total by the
same quantity. -/
theorem propStep_sum_total (db : FieldDb) (R : ℤ) (cur : String) (hop : ℕ)
    (st : PropSt) (b : Bond) :
    sumAmounts (PropagationEngine.propStep db R cur hop st b).dists -
      (PropagationEngine.propStep db R cur hop st b).total =
    sumAmounts st.dists - st.total := by
  unfold PropagationEngine.propStep
  dsimp only
  split_ifs <;> simp [sumAmounts]

/-- The bond loop of one pop preserves the amounts-minus-total difference. -/
theorem foldl_propStep_sum_total (db : FieldDb) (R : ℤ) (cur : String) (hop : ℕ)
    (bonds : List Bond) :
    ∀ st : PropSt,
      sumAmounts ((bonds.foldl (PropagationEngine.propStep db R cur hop) st)).dists -
        ((bonds.foldl (PropagationEngine.propStep db R cur hop) st)).total =
      sumAmounts st.dists - st.total := by
  induction bonds with
  | nil => intro st; rfl
  | cons b bs ih =>
    intro st
    rw [List.foldl_cons, ih]
    exact propStep_sum_total db R cur hop st b

/-- The whole phase-2 loop preserves the amounts-minus-total difference,
regardless of how much fuel it is given. -/
theorem propAux_sum_total (db : FieldDb) (R : ℤ) :
    ∀ (fuel : ℕ) (queue visited : List (String × Nat)) (dists : List Dist) (total : ℤ),
      (PropagationEngine.propAux db R fuel queue visited dists total).2 -
        sumAmounts (PropagationEngine.propAux db R fuel queue visited dists total).1 =
      total - sumAmounts dists := by
  intro fuel
  induction fuel with
  | zero =>
    intro queue visited dists total
    cases queue <;> rfl
  | succ f ih =>
    intro queue visited dists total
    cases queue with
    | nil => rfl
    | cons head rest =>
      obtain ⟨cur, hop⟩ := head
      show (PropagationEngine.propAux db R (f + 1) ((cur, hop) :: rest)
        visited dists total).2 - _ = _
      simp only [PropagationEngine.propAux]
      rw [ih]
      have := foldl_propStep_sum_total db R cur hop (activeBondsOf db cur)
        ⟨visited, [], dists, total⟩
      simp only [sumAmounts] at this ⊢
      linarith

/-- C1 (amended): the Distribution Result of calculate_propagation always has
allocation amounts summing exactly to the reported total_propagated, and that
total is always at least the input quantity Q; it equals Q — the conservation
the spec claims — exactly when phases 1-2 allocate at most Q.  (On graphs
where the truncated hop allocations of phases 1-2 exceed Q, phase 3 is
skipped and the distribution sums to more than Q, as the counterexample
shows.) -/
theorem claim_C1 (db : FieldDb) (origin_id : String) (Q : ℤ) (event_type : String)
    (res : PropagationEngine.PropResult)
    (h : PropagationEngine.calculate_propagation db origin_id Q event_type = .ok res) :
    sumAmounts res.distributions = res.total_propagated ∧
    res.energy_input = Q ∧
    Q ≤ res.total_propagated ∧
    (res.total_propagated ≤ Q → sumAmounts res.distributions = Q) := by
  unfold PropagationEngine.calculate_propagation at h
  cases hfind : db.members.find? (FieldEngine.isActiveMember origin_id) with
  | none => rw [hfind] at h; exact absurd h (by simp)
  | some origin =>
    rw [hfind] at h
    simp only [Except.ok.injEq] at h
    subst h
    set ph1 := PropagationEngine.phase1 db origin event_type with hph1
    set total1 := (ph1.map (fun d => d.amount)).sum with htot1
    set pe := if Q - total1 ≤ 0 then Q else Q - total1 with hpe
    set p := PropagationEngine.propAux db pe (2 * (universeIds db).length + 2)
      [(origin_id, 0)] [(origin_id, 0)] [] total1 with hp
    have hinv : p.2 - sumAmounts p.1 = total1 - sumAmounts [] :=
      propAux_sum_total db pe _ _ _ _ _
    have hph1sum : sumAmounts ph1 = total1 := rfl
    have hnil : sumAmounts ([] : List Dist) = 0 := rfl
    rw [hnil] at hinv
    refine ⟨?_, rfl, ?_, ?_⟩
    · show sumAmounts (if 0 < Q - p.2 then ph1 ++ p.1 ++
        PropagationEngine.calculate_absorption (Q - p.2) else ph1 ++ p.1) =
        (if 0 < Q - p.2 then p.2 + (Q - p.2) else p.2)
      split_ifs with hrem
      · have habs := absorption_sum (Q - p.2) (le_of_lt hrem)
        simp only [sumAmounts, List.map_append, List.sum_append] at habs hph1sum hinv ⊢
        linarith
      · simp only [sumAmounts, List.map_append, List.sum_append] at hph1sum hinv ⊢
        linarith
    · show Q ≤ (if 0 < Q - p.2 then p.2 + (Q - p.2) else p.2)
      split_ifs with hrem <;> linarith
    · intro hle
      show sumAmounts (if 0 < Q - p.2 then ph1 ++ p.1 ++
        PropagationEngine.calculate_absorption (Q - p.2) else ph1 ++ p.1) = Q
      have hle' : (if 0 < Q - p.2 then p.2 + (Q - p.2) else p.2) ≤ Q := hle
      split_ifs with hrem
      · have habs := absorption_sum (Q - p.2) (le_of_lt hrem)
        simp only [sumAmounts, List.map_append, List.sum_append] at habs hph1sum hinv ⊢
        linarith
      · rw [if_neg hrem] at hle'
        simp only [sumAmounts, List.map_append, List.sum_append] at hph1sum hinv ⊢
        linarith

/-- Counterexample for C1 as frozen: an origin with three ACTIVE bonds and
quantity 100 produces three hop-1 allocations of 50 each — the distribution
sums to 150, not 100. -/
theorem claim_C1_counterexample :
    (PropagationEngine.calculate_propagation denseDb "O" 100 "transfer").toOption.map
      (fun r => sumAmounts r.distributions) = some 150 ∧ (150 : ℤ) ≠ 100 :=
  ⟨by decide, by decide⟩

/-- Witness for C1 on the isolated origin: phases 1-2 allocate nothing, so the
distribution sums exactly to the input quantity 100. -/
theorem claim_C1_witness :
    sumAmounts isolatedRunResult.distributions = 100 := by
  have hx : PropagationEngine.calculate_propagation isolatedDb "O" 100 "transfer" =
      .ok isolatedRunResult := rfl
  have h := claim_C1 isolatedDb "O" 100 "transfer" isolatedRunResult hx
  exact h.2.2.2 (by decide)

/-! Structural facts about member mutation. -/

/-- Every element of `modifyFirst p f l` is an element of `l` or the image
under `f` of an element of `l` satisfying `p`. -/
theorem modifyFirst_mem {α : Type} (p : α → Bool) (f : α → α) (l : List α) :
    ∀ y ∈ modifyFirst p f l, y ∈ l ∨ ∃ x, x ∈ l ∧ p x = true ∧ y = f x := by
  induction l with
  | nil => intro y hy; simp [modifyFirst] at hy
  | cons a as ih =>
    intro y hy
    unfold modifyFirst at hy
    by_cases hpa : p a
    · rw [if_pos hpa] at hy
      rcases List.mem_cons.mp hy with rfl | hmem
      · exact Or.inr ⟨a, List.mem_cons_self _ _, hpa, rfl⟩
      · exact Or.inl (List.mem_cons_of_mem a hmem)
    · rw [if_neg hpa] at hy
      rcases List.mem_cons.mp hy with rfl | hmem
      · exact Or.inl (List.mem_cons_self _ _)
      · rcases ih y hmem with hin | ⟨x, hx, hpx, hfx⟩
        · exact Or.inl (List.mem_cons_of_mem a hin)
        · exact Or.inr ⟨x, List.mem_cons_of_mem a hx, hpx, hfx⟩

theorem update_node_state_count (m : Member) :
    (m.update_node_state).bond_count = m.bond_count := by
  unfold Member.update_node_state
  split_ifs <;> rfl

theorem update_node_state_id (m : Member) :
    (m.update_node_state).helios_id = m.helios_id := by
  unfold Member.update_node_state
  split_ifs <;> rfl

theorem update_node_state_status (m : Member) :
    (m.update_node_state).status = m.status := by
  unfold Member.update_node_state
  split_ifs <;> rfl

/-- When the count is positive, update_node_state writes exactly the derived
state; when it is 0, it leaves the member unchanged. -/
theorem update_node_state_spec (m : Member) :
    (1 ≤ m.bond_count → (m.update_node_state).node_state = stateOfCount m.bond_count) ∧
    (m.bond_count = 0 → m.update_node_state = m) := by
  unfold Member.update_node_state stateOfCount
  constructor
  · intro h1
    split_ifs <;> rfl
  · intro h0
    split_ifs <;> first | rfl | omega

/-- Inversion of a successful form_bond: how the members table changed and
which checks necessarily passed. -/
theorem form_bond_ok_inv (db : FieldDb) (now : Int) (a b : String) (db' : FieldDb)
    (h : FieldEngine.form_bond db now a b = .ok db') :
    db'.members = FieldEngine.bumpMember b (FieldEngine.bumpMember a db.members) ∧
    ∃ ma mb, db.members.find? (FieldEngine.isActiveMember a) = some ma ∧
      db.members.find? (FieldEngine.isActiveMember b) = some mb ∧
      a ≠ b ∧ ma.bond_count < FIELD_MAX_BONDS ∧ mb.bond_count < FIELD_MAX_BONDS := by
  unfold FieldEngine.form_bond at h
  cases hfa : db.members.find? (FieldEngine.isActiveMember a) with
  | none => rw [hfa] at h; exact absurd h (by simp)
  | some ma =>
    rw [hfa] at h
    cases hfb : db.members.find? (FieldEngine.isActiveMember b) with
    | none => rw [hfb] at h; exact absurd h (by simp)
    | some mb =>
      rw [hfb] at h
      dsimp only at h
      split_ifs at h with hab hca hcb
      have hgoal2 : a ≠ b ∧ ma.bond_count < FIELD_MAX_BONDS ∧
          mb.bond_count < FIELD_MAX_BONDS :=
        ⟨hab, Nat.lt_of_not_le hca, Nat.lt_of_not_le hcb⟩
      split at h
      case _ existing heq =>
        split_ifs at h with hact hinact
        case _ =>
          simp only [Except.ok.injEq] at h
          subst h
          exact ⟨rfl, ma, mb, rfl, rfl, hgoal2⟩
        case _ =>
          split at h
          case _ lb hlb =>
            split_ifs at h with hcool
            simp only [Except.ok.injEq] at h
            subst h
            exact ⟨rfl, ma, mb, rfl, rfl, hgoal2⟩
          case _ hlb =>
            simp only [Except.ok.injEq] at h
            subst h
            exact ⟨rfl, ma, mb, rfl, rfl, hgoal2⟩
      case _ heq =>
        split at h
        case _ lb hlb =>
          split_ifs at h with hcool
          simp only [Except.ok.injEq] at h
          subst h
          exact ⟨rfl, ma, mb, rfl, rfl, hgoal2⟩
        case _ hlb =>
          simp only [Except.ok.injEq] at h
          subst h
          exact ⟨rfl, ma, mb, rfl, rfl, hgoal2⟩

/-- Inversion of a successful dissolve_bond: the members table changed by the
two decrements and nothing else. -/
theorem dissolve_bond_ok_members (db : FieldDb) (now : Int) (a b : String)
    (db' : FieldDb) (h : FieldEngine.dissolve_bond db now a b = .ok db') :
    db'.members = FieldEngine.dropMember b (FieldEngine.dropMember a db.members) := by
  unfold FieldEngine.dissolve_bond at h
  dsimp only at h
  split at h
  · exact absurd h (by simp)
  · simp only [Except.ok.injEq] at h
    subst h
    rfl

theorem derivedOk_update (m : Member) :
    1 ≤ (m.update_node_state).bond_count →
    (m.update_node_state).node_state = stateOfCount (m.update_node_state).bond_count := by
  rw [update_node_state_count]
  exact (update_node_state_spec m).1

theorem bumpMember_pred (x : String) (members : List Member)
    (h : ∀ m ∈ members, 1 ≤ m.bond_count → m.node_state = stateOfCount m.bond_count) :
    ∀ m ∈ FieldEngine.bumpMember x members,
      1 ≤ m.bond_count → m.node_state = stateOfCount m.bond_count := by
  intro m hm
  rcases modifyFirst_mem _ _ _ m hm with hin | ⟨y, hy, hpy, rfl⟩
  · exact h m hin
  · exact derivedOk_update _

theorem dropMember_pred (x : String) (members : List Member)
    (h : ∀ m ∈ members, 1 ≤ m.bond_count → m.node_state = stateOfCount m.bond_count) :
    ∀ m ∈ FieldEngine.dropMember x members,
      1 ≤ m.bond_count → m.node_state = stateOfCount m.bond_count := by
  intro m hm
  rcases modifyFirst_mem _ _ _ m hm with hin | ⟨y, hy, hpy, rfl⟩
  · exact h m hin
  · exact derivedOk_update _

/-- C4 (amended): Member.update_node_state writes the state derived from the
current ACTIVE bond count whenever that count is at least 1 (1-2 connected,
3-4 propagating, 5+ stable) and leaves the member unchanged at count 0 (the
join flow, not the recomputation, sets instantiated/acknowledged); hence the
property that every node with a positive count carries its derived state is
preserved by every sequence of bond-graph mutations.  The full original claim
— state a pure function of count, so equal counts imply equal states — fails
at count 0, as the counterexample shows. -/
theorem claim_C4 :
    (∀ m : Member, 1 ≤ m.bond_count →
      (m.update_node_state).node_state = stateOfCount m.bond_count) ∧
    (∀ m : Member, m.bond_count = 0 → m.update_node_state = m) ∧
    (∀ (db : FieldDb) (ops : List FieldOp),
      (∀ m ∈ db.members, 1 ≤ m.bond_count → m.node_state = stateOfCount m.bond_count) →
      ∀ m ∈ (runOps db ops).members, 1 ≤ m.bond_count →
        m.node_state = stateOfCount m.bond_count) := by
  refine ⟨fun m => (update_node_state_spec m).1, fun m => (update_node_state_spec m).2, ?_⟩
  intro db ops
  induction ops generalizing db with
  | nil => intro h; exact h
  | cons op rest ih =>
    intro h
    show ∀ m ∈ (runOps (applyOp db op) rest).members, _
    apply ih
    cases op with
    | form now a b =>
      cases hres : FieldEngine.form_bond db now a b with
      | error e => simpa only [applyOp, hres] using h
      | ok db' =>
        simp only [applyOp, hres]
        rw [(form_bond_ok_inv db now a b db' hres).1]
        exact bumpMember_pred _ _ (bumpMember_pred _ _ h)
    | dissolve now a b =>
      cases hres : FieldEngine.dissolve_bond db now a b with
      | error e => simpa only [applyOp, hres] using h
      | ok db' =>
        simp only [applyOp, hres]
        rw [dissolve_bond_ok_members db now a b db' hres]
        exact dropMember_pred _ _ (dropMember_pred _ _ h)

/-- Counterexample for C4 as frozen: dissolving the only bond of X leaves X at
bond count 0 with the stale state "connected", while the never-bonded Z also
has count 0 but state "instantiated" — the state is not a function of the
count. -/
theorem claim_C4_counterexample :
    ¬ (∀ m1 ∈ dissolvedMembers, ∀ m2 ∈ dissolvedMembers,
        m1.bond_count = m2.bond_count → m1.node_state = m2.node_state) := by decide

/-- Witness for C4: the derived-state property survives dissolving the X - Y
bond of the cooldown database. -/
theorem claim_C4_witness :
    ∀ m ∈ (runOps cooldownDb [FieldOp.dissolve 10 "X" "Y"]).members,
      1 ≤ m.bond_count → m.node_state = stateOfCount m.bond_count :=
  claim_C4.2.2 cooldownDb [FieldOp.dissolve 10 "X" "Y"] (by decide)

/-! Degree-cap preservation. -/

/-- When the element `modifyFirst` touches is known through find?, every
element of the result is an old element or the image of the found one. -/
theorem modifyFirst_of_find {α : Type} (p : α → Bool) (f : α → α) :
    ∀ (l : List α) (x : α), l.find? p = some x →
      ∀ y ∈ modifyFirst p f l, y ∈ l ∨ y = f x := by
  intro l
  induction l with
  | nil => intro x hfind; simp at hfind
  | cons a as ih =>
    intro x hfind y hy
    unfold modifyFirst at hy
    by_cases hpa : p a
    · rw [List.find?_cons_of_pos _ hpa, Option.some.injEq] at hfind
      subst hfind
      rw [if_pos hpa] at hy
      rcases List.mem_cons.mp hy with rfl | hmem
      · exact Or.inr rfl
      · exact Or.inl (List.mem_cons_of_mem a hmem)
    · rw [List.find?_cons_of_neg _ hpa] at hfind
      rw [if_neg hpa] at hy
      rcases List.mem_cons.mp hy with rfl | hmem
      · exact Or.inl (List.mem_cons_self _ _)
      · rcases ih x hfind y hmem with hin | hfx
        · exact Or.inl (List.mem_cons_of_mem a hin)
        · exact Or.inr hfx

/-- A find? for one key is unaffected by modifying the row of another key. -/
theorem find_modifyFirst_of_ne {α : Type} (p q : α → Bool) (f : α → α)
    (hq : ∀ x, p x = true → q x = false) (hqf : ∀ x, q (f x) = q x) :
    ∀ l : List α, (modifyFirst p f l).find? q = l.find? q := by
  intro l
  induction l with
  | nil => rfl
  | cons a as ih =>
    unfold modifyFirst
    by_cases hpa : p a
    · rw [if_pos hpa]
      have hqa := hq a hpa
      rw [List.find?_cons_of_neg _ (by simp [hqf, hqa]),
        List.find?_cons_of_neg _ (by simp [hqa])]
    · rw [if_neg hpa]
      by_cases hqa : q a
      · rw [List.find?_cons_of_pos _ hqa, List.find?_cons_of_pos _ hqa]
      · rw [List.find?_cons_of_neg _ hqa, List.find?_cons_of_neg _ hqa]
        exact ih

/-- The two bump targets of form_bond are different rows, so the peer lookup
still finds the same row after the initiator bump. -/
theorem find_bump_other (a b : String) (hab : a ≠ b) (members : List Member) :
    (FieldEngine.bumpMember a members).find? (FieldEngine.isActiveMember b) =
      members.find? (FieldEngine.isActiveMember b) := by
  unfold FieldEngine.bumpMember
  apply find_modifyFirst_of_ne
  · intro x hx
    simp only [FieldEngine.isActiveMember, Bool.and_eq_true, beq_iff_eq] at hx ⊢
    simp only [Bool.and_eq_false_iff, beq_eq_false_iff_ne, ne_eq]
    exact Or.inl (fun hxb => hab (hx.1 ▸ hxb))
  · intro x
    simp only [FieldEngine.isActiveMember, update_node_state_id, update_node_state_status]

/-- A successful form_bond keeps every bond count within the cap. -/
theorem form_bond_members_le (db : FieldDb) (now : Int) (a b : String) (db' : FieldDb)
    (h : FieldEngine.form_bond db now a b = .ok db')
    (h5 : ∀ m ∈ db.members, m.bond_count ≤ FIELD_MAX_BONDS) :
    ∀ m ∈ db'.members, m.bond_count ≤ FIELD_MAX_BONDS := by
  obtain ⟨hmem, ma, mb, hfa, hfb, hab, hca, hcb⟩ := form_bond_ok_inv db now a b db' h
  rw [hmem]
  have hinner : ∀ m ∈ FieldEngine.bumpMember a db.members,
      m.bond_count ≤ FIELD_MAX_BONDS := by
    intro m hm
    rcases modifyFirst_of_find _ _ db.members ma hfa m hm with hin | rfl
    · exact h5 m hin
    · rw [update_node_state_count]
      dsimp only
      omega
  have hfb' : (FieldEngine.bumpMember a db.members).find?
      (FieldEngine.isActiveMember b) = some mb := by
    rw [find_bump_other a b hab]
    exact hfb
  intro m hm
  rcases modifyFirst_of_find _ _ _ mb hfb' m hm with hin | rfl
  · exact hinner m hin
  · rw [update_node_state_count]
    dsimp only
    omega

/-- A successful dissolve_bond never increases any bond count, and changes no
node id. -/
theorem dropMember_mono (x : String) (members : List Member) :
    ∀ m' ∈ FieldEngine.dropMember x members,
      ∃ m ∈ members, m'.helios_id = m.helios_id ∧ m'.bond_count ≤ m.bond_count := by
  intro m' hm
  rcases modifyFirst_mem _ _ _ m' hm with hin | ⟨y, hy, hpy, rfl⟩
  · exact ⟨m', hin, rfl, le_refl _⟩
  · refine ⟨y, hy, ?_, ?_⟩
    · rw [update_node_state_id]
    · rw [update_node_state_count]
      dsimp only
      omega

/-- C2: under any sequence of formBond/dissolveBond calls from a state where
every bond count is within the cap of 5, every bond count stays within the
cap; formBond rejects with CapacityExceeded whenever either found endpoint is
at the cap — the check runs before the existing-row branch, so it also guards
the reactivation path — and dissolveBond only ever decreases counts. -/
theorem claim_C2 :
    (∀ (db : FieldDb) (ops : List FieldOp),
      (∀ m ∈ db.members, m.bond_count ≤ FIELD_MAX_BONDS) →
      ∀ m ∈ (runOps db ops).members, m.bond_count ≤ FIELD_MAX_BONDS) ∧
    (∀ (db : FieldDb) (now : Int) (a b : String) (ma mb : Member),
      db.members.find? (FieldEngine.isActiveMember a) = some ma →
      db.members.find? (FieldEngine.isActiveMember b) = some mb →
      a ≠ b →
      (FIELD_MAX_BONDS ≤ ma.bond_count ∨ FIELD_MAX_BONDS ≤ mb.bond_count) →
      FieldEngine.form_bond db now a b = .error .capacityExceeded) ∧
    (∀ (db : FieldDb) (now : Int) (a b : String) (db' : FieldDb),
      FieldEngine.dissolve_bond db now a b = .ok db' →
      ∀ m' ∈ db'.members, ∃ m ∈ db.members,
        m'.helios_id = m.helios_id ∧ m'.bond_count ≤ m.bond_count) := by
  refine ⟨?_, ?_, ?_⟩
  · intro db ops
    induction ops generalizing db with
    | nil => intro h; exact h
    | cons op rest ih =>
      intro h
      show ∀ m ∈ (runOps (applyOp db op) rest).members, _
      apply ih
      cases op with
      | form now a b =>
        cases hres : FieldEngine.form_bond db now a b with
        | error e => simpa only [applyOp, hres] using h
        | ok db' =>
          simp only [applyOp, hres]
          exact form_bond_members_le db now a b db' hres h
      | dissolve now a b =>
        cases hres : FieldEngine.dissolve_bond db now a b with
        | error e => simpa only [applyOp, hres] using h
        | ok db' =>
          simp only [applyOp, hres]
          intro m hm
          rw [dissolve_bond_ok_members db now a b db' hres] at hm
          obtain ⟨m1, hm1, _, hle1⟩ := dropMember_mono b _ m hm
          obtain ⟨m0, hm0, _, hle0⟩ := dropMember_mono a _ m1 hm1
          exact le_trans hle1 (le_trans hle0 (h m0 hm0))
  · intro db now a b ma mb hfa hfb hab hcap
    unfold FieldEngine.form_bond
    rw [hfa, hfb]
    dsimp only
    rw [if_neg hab]
    by_cases h5a : FIELD_MAX_BONDS ≤ ma.bond_count
    · rw [if_pos h5a]
    · rw [if_neg h5a, if_pos (hcap.resolve_left h5a)]
  · intro db now a b db' h m' hm
    rw [dissolve_bond_ok_members db now a b db' h] at hm
    obtain ⟨m1, hm1, hid1, hle1⟩ := dropMember_mono b _ m' hm
    obtain ⟨m0, hm0, hid0, hle0⟩ := dropMember_mono a _ m1 hm1
    exact ⟨m0, hm0, hid1.trans hid0, le_trans hle1 hle0⟩

/-- Witness for C2: forming X - Z after the cooldown and dissolving X - Y
keeps every bond count within the cap. -/
theorem claim_C2_witness :
    ∀ m ∈ (runOps cooldownDb
      [FieldOp.form 90000 "X" "Z", FieldOp.dissolve 100000 "X" "Y"]).members,
      m.bond_count ≤ FIELD_MAX_BONDS :=
  claim_C2.1 cooldownDb
    [FieldOp.form 90000 "X" "Z", FieldOp.dissolve 100000 "X" "Y"] (by decide)

/-! Characterization of the most-recent-bond lookup. -/

theorem foldl_pickLater_some_struct :
    ∀ (l : List Bond) (c : Bond),
      ∃ d, l.foldl FieldEngine.pickLater (some c) = some d ∧
        (d = c ∨ d ∈ l) ∧ c.created_at ≤ d.created_at ∧
        ∀ b ∈ l, b.created_at ≤ d.created_at := by
  intro l
  induction l with
  | nil => exact fun c => ⟨c, rfl, Or.inl rfl, le_refl _, by simp⟩
  | cons b bs ih =>
    intro c
    have hpick : FieldEngine.pickLater (some c) b =
        if c.created_at < b.created_at then some b else some c := rfl
    rw [List.foldl_cons, hpick]
    by_cases hlt : c.created_at < b.created_at
    · rw [if_pos hlt]
      obtain ⟨d, heq, hd, hcd, hall⟩ := ih b
      refine ⟨d, heq, ?_, by omega, ?_⟩
      · rcases hd with rfl | hin
        · exact Or.inr (List.mem_cons_self _ _)
        · exact Or.inr (List.mem_cons_of_mem _ hin)
      · intro x hx
        rcases List.mem_cons.mp hx with rfl | hin
        · exact hcd
        · exact hall x hin
    · rw [if_neg hlt]
      obtain ⟨d, heq, hd, hcd, hall⟩ := ih c
      refine ⟨d, heq, ?_, hcd, ?_⟩
      · rcases hd with rfl | hin
        · exact Or.inl rfl
        · exact Or.inr (List.mem_cons_of_mem _ hin)
      · intro x hx
        rcases List.mem_cons.mp hx with rfl | hin
        · omega
        · exact hall x hin

theorem lastBondOf_none (db : FieldDb) (x : String)
    (h : FieldEngine.lastBondOf db x = none) :
    ∀ b ∈ db.bonds, ¬ b.involves x = true := by
  intro b hb hbx
  unfold FieldEngine.lastBondOf at h
  cases hfil : db.bonds.filter (fun r => r.involves x) with
  | nil =>
    have : b ∈ db.bonds.filter (fun r => r.involves x) :=
      List.mem_filter.mpr ⟨hb, hbx⟩
    rw [hfil] at this
    simp at this
  | cons c cs =>
    rw [hfil, List.foldl_cons] at h
    have hpick : FieldEngine.pickLater none c = some c := rfl
    rw [hpick] at h
    obtain ⟨d, heq, _, _, _⟩ := foldl_pickLater_some_struct cs c
    rw [heq] at h
    exact absurd h (by simp)

theorem lastBondOf_some (db : FieldDb) (x : String) (lb : Bond)
    (h : FieldEngine.lastBondOf db x = some lb) :
    lb ∈ db.bonds ∧ lb.involves x = true ∧
      ∀ b ∈ db.bonds, b.involves x = true → b.created_at ≤ lb.created_at := by
  unfold FieldEngine.lastBondOf at h
  cases hfil : db.bonds.filter (fun r => r.involves x) with
  | nil => rw [hfil] at h; simp at h
  | cons c cs =>
    rw [hfil, List.foldl_cons] at h
    have hpick : FieldEngine.pickLater none c = some c := rfl
    rw [hpick] at h
    obtain ⟨d, heq, hd, hcd, hall⟩ := foldl_pickLater_some_struct cs c
    rw [heq, Option.some.injEq] at h
    subst h
    have hdfil : d ∈ db.bonds.filter (fun r => r.involves x) := by
      rw [hfil]
      rcases hd with rfl | hin
      · exact List.mem_cons_self _ _
      · exact List.mem_cons_of_mem _ hin
    obtain ⟨hmem, hinv⟩ := List.mem_filter.mp hdfil
    refine ⟨hmem, by simpa using hinv, ?_⟩
    intro b hb hbx
    have hbfil : b ∈ db.bonds.filter (fun r => r.involves x) :=
      List.mem_filter.mpr ⟨hb, by simpa using hbx⟩
    rw [hfil] at hbfil
    rcases List.mem_cons.mp hbfil with rfl | hin
    · exact hcd
    · exact hall b hin

/-- C5: form_bond fails with Cooldown exactly when every earlier check passes,
the pair has no reusable row (no row at all, or one in neither the ACTIVE nor
the INACTIVE state), and the initiator has some bond record — of any state, as
either endpoint — created within the 24-hour window before the call; in
particular, 1 hour after X bonded the attempt fails and 25 hours after it
succeeds. -/
theorem claim_C5 :
    (∀ (db : FieldDb) (now : Int) (a b : String),
      FieldEngine.form_bond db now a b = .error .cooldown ↔
      ((∃ ma, db.members.find? (FieldEngine.isActiveMember a) = some ma ∧
          ma.bond_count < FIELD_MAX_BONDS) ∧
       (∃ mb, db.members.find? (FieldEngine.isActiveMember b) = some mb ∧
          mb.bond_count < FIELD_MAX_BONDS) ∧
       a ≠ b ∧
       (∀ ex, db.bonds.find? (fun r => r.node_a == (Bond.ordered_pair a b).1 &&
           r.node_b == (Bond.ordered_pair a b).2) = some ex →
         ex.state ≠ BOND_STATE_ACTIVE ∧ ex.state ≠ BOND_STATE_INACTIVE) ∧
       (∃ r ∈ db.bonds, r.involves a = true ∧ now - r.created_at < cooldownSeconds))) ∧
    FieldEngine.form_bond cooldownDb 3600 "X" "Z" = .error .cooldown ∧
    (FieldEngine.form_bond cooldownDb 90000 "X" "Z").isOk = true := by
  refine ⟨?_, by rfl, by decide⟩
  intro db now a b
  constructor
  · intro h
    unfold FieldEngine.form_bond at h
    cases hfa : db.members.find? (FieldEngine.isActiveMember a) with
    | none => rw [hfa] at h; exact absurd h (by simp)
    | some ma =>
      rw [hfa] at h
      cases hfb : db.members.find? (FieldEngine.isActiveMember b) with
      | none => rw [hfb] at h; exact absurd h (by simp)
      | some mb =>
        rw [hfb] at h
        dsimp only at h
        split_ifs at h with hab hca hcb
        · exact absurd h (by simp)
        · exact absurd h (by simp)
        · exact absurd h (by simp)
        · have base : (∃ ma', some ma = some ma' ∧
              ma'.bond_count < FIELD_MAX_BONDS) ∧
              ∃ mb', some mb = some mb' ∧ mb'.bond_count < FIELD_MAX_BONDS :=
            ⟨⟨ma, rfl, Nat.lt_of_not_le hca⟩, ⟨mb, rfl, Nat.lt_of_not_le hcb⟩⟩
          split at h
          case _ existing heq =>
            split_ifs at h with hact hinact
            · exact absurd h (by simp)
            · split at h
              case _ lb hlb =>
                split_ifs at h with hcool
                obtain ⟨hlbmem, hlbinv, _⟩ := lastBondOf_some db a lb hlb
                refine ⟨base.1, base.2, hab, ?_, lb, hlbmem, hlbinv, hcool⟩
                intro ex hex
                rw [heq, Option.some.injEq] at hex
                subst hex
                exact ⟨hact, hinact⟩
              case _ hlb =>
                exact absurd h (by simp)
          case _ heq =>
            split at h
            case _ lb hlb =>
              split_ifs at h with hcool
              obtain ⟨hlbmem, hlbinv, _⟩ := lastBondOf_some db a lb hlb
              refine ⟨base.1, base.2, hab, ?_, lb, hlbmem, hlbinv, hcool⟩
              intro ex hex
              rw [heq] at hex
              exact absurd hex (by simp)
            case _ hlb =>
              exact absurd h (by simp)
  · rintro ⟨⟨ma, hfa, hca⟩, ⟨mb, hfb, hcb⟩, hab, hex, r, hr, hrx, hrt⟩
    unfold FieldEngine.form_bond
    rw [hfa, hfb]
    dsimp only
    rw [if_neg hab, if_neg (not_le.mpr hca), if_neg (not_le.mpr hcb)]
    split
    case _ existing heq =>
      obtain ⟨hex1, hex2⟩ := hex existing heq
      rw [if_neg hex1, if_neg hex2]
      split
      case _ lb hlb =>
        have hmax := (lastBondOf_some db a lb hlb).2.2 r hr hrx
        rw [if_pos (by omega)]
      case _ hlb =>
        exact absurd hrx (lastBondOf_none db a hlb r hr)
    case _ heq =>
      split
      case _ lb hlb =>
        have hmax := (lastBondOf_some db a lb hlb).2.2 r hr hrx
        rw [if_pos (by omega)]
      case _ hlb =>
        exact absurd hrx (lastBondOf_none db a hlb r hr)

/-! Reactivation of a dormant bond. -/

theorem modifyFirst_length {α : Type} (p : α → Bool) (f : α → α) :
    ∀ l : List α, (modifyFirst p f l).length = l.length := by
  intro l
  induction l with
  | nil => rfl
  | cons a as ih =>
    unfold modifyFirst
    by_cases hpa : p a
    · rw [if_pos hpa]
      rfl
    · rw [if_neg hpa]
      simp [ih]

/-- Modifications of rows selected by disjoint, modification-stable predicates
commute. -/
theorem modifyFirst_comm {α : Type} (p q : α → Bool) (f g : α → α)
    (hdisj : ∀ x, p x = true → q x = false)
    (hqf : ∀ x, q (f x) = q x) (hpg : ∀ x, p (g x) = p x) :
    ∀ l : List α, modifyFirst p f (modifyFirst q g l) =
      modifyFirst q g (modifyFirst p f l) := by
  intro l
  induction l with
  | nil => rfl
  | cons a as ih =>
    by_cases hqa : q a
    · have hpa : ¬ p a = true := by
        intro hp
        rw [hdisj a hp] at hqa
        exact absurd hqa (by simp)
      show modifyFirst p f (if q a then g a :: as else _) = _
      rw [if_pos hqa]
      show (if p (g a) then f (g a) :: as else g a :: modifyFirst p f as) = _
      rw [hpg a, if_neg hpa]
      show _ = modifyFirst q g (if p a then f a :: as else a :: modifyFirst p f as)
      rw [if_neg hpa]
      show _ = if q a then g a :: modifyFirst p f as else _
      rw [if_pos hqa]
    · by_cases hpa : p a
      · have hqfa : ¬ q (f a) = true := by rw [hqf a]; exact hqa
        show modifyFirst p f (if q a then _ else a :: modifyFirst q g as) = _
        rw [if_neg hqa]
        show (if p a then f a :: modifyFirst q g as else _) = _
        rw [if_pos hpa]
        show _ = modifyFirst q g (if p a then f a :: as else _)
        rw [if_pos hpa]
        show _ = if q (f a) then g (f a) :: as else f a :: modifyFirst q g as
        rw [if_neg hqfa]
      · show modifyFirst p f (if q a then _ else a :: modifyFirst q g as) = _
        rw [if_neg hqa]
        show (if p a then _ else a :: modifyFirst p f (modifyFirst q g as)) = _
        rw [if_neg hpa]
        show _ = modifyFirst q g (if p a then _ else a :: modifyFirst p f as)
        rw [if_neg hpa]
        show _ = if q a then _ else a :: modifyFirst q g (modifyFirst p f as)
        rw [if_neg hqa, ih]

theorem ordered_pair_comm (a b : String) (hab : a ≠ b) :
    Bond.ordered_pair b a = Bond.ordered_pair a b := by
  unfold Bond.ordered_pair
  rcases lt_or_gt_of_ne hab with h | h
  · rw [if_pos (show a.data < b.data from String.lt_iff_toList_lt.mp h),
      if_neg (show ¬ b.data < a.data from
        fun hba => asymm h (String.lt_iff_toList_lt.mpr hba))]
  · rw [if_neg (show ¬ a.data < b.data from
        fun hba => asymm h (String.lt_iff_toList_lt.mpr hba)),
      if_pos (show b.data < a.data from String.lt_iff_toList_lt.mp h)]

theorem bumpMember_comm (a b : String) (hab : a ≠ b) (l : List Member) :
    FieldEngine.bumpMember a (FieldEngine.bumpMember b l) =
      FieldEngine.bumpMember b (FieldEngine.bumpMember a l) := by
  unfold FieldEngine.bumpMember
  apply modifyFirst_comm
  · intro x hx
    simp only [FieldEngine.isActiveMember, Bool.and_eq_true, beq_iff_eq] at hx
    simp only [FieldEngine.isActiveMember, Bool.and_eq_false_iff, beq_eq_false_iff_ne, ne_eq]
    exact Or.inl (fun hxb => hab (hx.1.symm.trans hxb))
  · intro x
    simp only [FieldEngine.isActiveMember, update_node_state_id, update_node_state_status]
  · intro x
    simp only [FieldEngine.isActiveMember, update_node_state_id, update_node_state_status]

/-- C6: with an existing INACTIVE row for the canonical pair and all earlier
checks passing, form_bond reactivates that same row in place — state ACTIVE,
both counts bumped, no new row, so the bonds table keeps its length — the
call works the same with the ids in either order, and it never fails with
Cooldown no matter what recent bond records exist. -/
theorem claim_C6 (db : FieldDb) (now : Int) (a b : String) (ma mb : Member)
    (ex : Bond)
    (hfa : db.members.find? (FieldEngine.isActiveMember a) = some ma)
    (hfb : db.members.find? (FieldEngine.isActiveMember b) = some mb)
    (hab : a ≠ b)
    (hca : ma.bond_count < FIELD_MAX_BONDS)
    (hcb : mb.bond_count < FIELD_MAX_BONDS)
    (hex : db.bonds.find? (fun r => r.node_a == (Bond.ordered_pair a b).1 &&
      r.node_b == (Bond.ordered_pair a b).2) = some ex)
    (hst : ex.state = BOND_STATE_INACTIVE) :
    FieldEngine.form_bond db now a b = .ok { db with
      bonds := modifyFirst (fun r => r.node_a == (Bond.ordered_pair a b).1 &&
          r.node_b == (Bond.ordered_pair a b).2)
        (fun r => { r with
                    state := BOND_STATE_ACTIVE
                    activated_at := some now
                    deactivated_at := none }) db.bonds
      members := FieldEngine.bumpMember b (FieldEngine.bumpMember a db.members) } ∧
    (modifyFirst (fun r => r.node_a == (Bond.ordered_pair a b).1 &&
        r.node_b == (Bond.ordered_pair a b).2)
      (fun r => { r with
                  state := BOND_STATE_ACTIVE
                  activated_at := some now
                  deactivated_at := none }) db.bonds).length = db.bonds.length ∧
    FieldEngine.form_bond db now b a = FieldEngine.form_bond db now a b ∧
    FieldEngine.form_bond db now a b ≠ .error .cooldown := by
  have hmain : FieldEngine.form_bond db now a b = .ok { db with
      bonds := modifyFirst (fun r => r.node_a == (Bond.ordered_pair a b).1 &&
          r.node_b == (Bond.ordered_pair a b).2)
        (fun r => { r with
                    state := BOND_STATE_ACTIVE
                    activated_at := some now
                    deactivated_at := none }) db.bonds
      members := FieldEngine.bumpMember b (FieldEngine.bumpMember a db.members) } := by
    unfold FieldEngine.form_bond
    rw [hfa, hfb]
    dsimp only
    rw [if_neg hab, if_neg (not_le.mpr hca), if_neg (not_le.mpr hcb), hex]
    dsimp only
    rw [if_neg (by rw [hst]; simp [BOND_STATE_INACTIVE, BOND_STATE_ACTIVE]),
      if_pos hst]
  have hswap : FieldEngine.form_bond db now b a = .ok { db with
      bonds := modifyFirst (fun r => r.node_a == (Bond.ordered_pair a b).1 &&
          r.node_b == (Bond.ordered_pair a b).2)
        (fun r => { r with
                    state := BOND_STATE_ACTIVE
                    activated_at := some now
                    deactivated_at := none }) db.bonds
      members := FieldEngine.bumpMember b (FieldEngine.bumpMember a db.members) } := by
    unfold FieldEngine.form_bond
    rw [hfb, hfa]
    dsimp only
    rw [if_neg hab.symm, if_neg (not_le.mpr hcb), if_neg (not_le.mpr hca),
      ordered_pair_comm a b hab, hex]
    dsimp only
    rw [if_neg (by rw [hst]; simp [BOND_STATE_INACTIVE, BOND_STATE_ACTIVE]),
      if_pos hst, bumpMember_comm a b hab]
  refine ⟨hmain, modifyFirst_length _ _ _, hswap.trans hmain.symm, ?_⟩
  rw [hmain]
  simp

/-- Witness for C6: the dormant A - B row of `reactivateDb` (created at time
0) is reactivated by a call only one hour later, in either argument order. -/
theorem claim_C6_witness :
    FieldEngine.form_bond reactivateDb 3600 "B" "A" =
      FieldEngine.form_bond reactivateDb 3600 "A" "B" ∧
    FieldEngine.form_bond reactivateDb 3600 "A" "B" ≠ .error .cooldown := by
  have h := claim_C6 reactivateDb 3600 "A" "B"
    (mkMember "A" 0 "connected") (mkMember "B" 0 "connected")
    (mkBond 1 "A" "B" "inactive" 0)
    rfl rfl (by decide) (by decide) (by decide) rfl rfl
  exact ⟨h.2.2.1, h.2.2.2⟩

/-! Breadth-first traversal invariants. -/

theorem visitedHas_append (v w : List (String × Nat)) (x : String) :
    visitedHas (v ++ w) x = (visitedHas v x || visitedHas w x) := by
  unfold visitedHas
  exact List.any_append

theorem visitedHas_iff (v : List (String × Nat)) (x : String) :
    visitedHas v x = true ↔ x ∈ v.map Prod.fst := by
  unfold visitedHas
  rw [List.any_eq_true]
  constructor
  · rintro ⟨p, hp, hpx⟩
    exact List.mem_map.mpr ⟨p, hp, by simpa using hpx⟩
  · intro hx
    obtain ⟨p, hp, rfl⟩ := List.mem_map.mp hx
    exact ⟨p, hp, by simp⟩

/-- One iteration of the inner bond loop of get_field: it appends the same
(zero or one) freshly discovered entries to `visited` and to the new-queue
segment, any appended entry is at hop `h + 1` within range and was unvisited,
and edge keys stay deduplicated. -/
theorem edges_append_key_nodup (l : List FieldEdge) (e0 : FieldEdge)
    (hany : ¬ (l.any fun e => e.key == e0.key) = true)
    (hnd : (l.map (fun e => e.key)).Nodup) :
    ((l ++ [e0]).map (fun e => e.key)).Nodup := by
  rw [List.map_append]
  apply List.Nodup.append hnd (by simp)
  intro k hk hk'
  simp only [List.map_cons, List.map_nil, List.mem_singleton] at hk'
  subst hk'
  obtain ⟨e, he, hke⟩ := List.mem_map.mp hk
  rw [List.any_eq_true] at hany
  exact hany ⟨e, he, by simp [hke]⟩

/-- One iteration of the inner bond loop of get_field: it appends the same
(zero or one) freshly discovered entries to `visited` and to the new-queue
segment, any appended entry is at hop `h + 1` within range and was unvisited,
and edge keys stay deduplicated. -/
theorem fieldScanStep_struct (mh : Nat) (cur : String) (h : Nat) (st : ScanSt)
    (b : Bond) :
    ∃ X : List (String × Nat),
      (fieldScanStep mh cur h st b).visited = st.visited ++ X ∧
      (fieldScanStep mh cur h st b).newq = st.newq ++ X ∧
      (∀ q ∈ X, q.2 = h + 1 ∧ h + 1 ≤ mh ∧ visitedHas st.visited q.1 = false) ∧
      (X.map Prod.fst).Nodup ∧
      ((st.edges.map (fun e => e.key)).Nodup →
        ((fieldScanStep mh cur h st b).edges.map (fun e => e.key)).Nodup) := by
  unfold fieldScanStep
  dsimp only
  by_cases hany : (st.edges.any fun e => e.key == edgeKey cur (b.peer_of cur)) = true
  · rw [if_pos hany]
    split_ifs with hcond
    · rw [Bool.and_eq_true, Bool.not_eq_eq_eq_not, Bool.not_true, decide_eq_true_eq]
        at hcond
      refine ⟨[(b.peer_of cur, h + 1)], rfl, rfl, ?_, by simp, fun hnd => hnd⟩
      intro q hq
      rw [List.mem_singleton] at hq
      subst hq
      exact ⟨rfl, hcond.2, hcond.1⟩
    · exact ⟨[], by simp, by simp, by simp, by simp, fun hnd => hnd⟩
  · rw [if_neg hany]
    split_ifs with hcond
    · rw [Bool.and_eq_true, Bool.not_eq_eq_eq_not, Bool.not_true, decide_eq_true_eq]
        at hcond
      refine ⟨[(b.peer_of cur, h + 1)], rfl, rfl, ?_, by simp,
        fun hnd => edges_append_key_nodup _ _ hany hnd⟩
      intro q hq
      rw [List.mem_singleton] at hq
      subst hq
      exact ⟨rfl, hcond.2, hcond.1⟩
    · exact ⟨[], by simp, by simp, by simp, by simp,
        fun hnd => edges_append_key_nodup _ _ hany hnd⟩

/-- The whole inner bond loop of get_field, by iterating the single step. -/
theorem fieldScan_struct (mh : Nat) (cur : String) (h : Nat) :
    ∀ (bonds : List Bond) (st : ScanSt),
      ∃ add : List (String × Nat),
        (bonds.foldl (fieldScanStep mh cur h) st).visited = st.visited ++ add ∧
        (bonds.foldl (fieldScanStep mh cur h) st).newq = st.newq ++ add ∧
        (∀ q ∈ add, q.2 = h + 1 ∧ h + 1 ≤ mh ∧ visitedHas st.visited q.1 = false) ∧
        (add.map Prod.fst).Nodup ∧
        ((st.edges.map (fun e => e.key)).Nodup →
          ((bonds.foldl (fieldScanStep mh cur h) st).edges.map
            (fun e => e.key)).Nodup) := by
  intro bonds
  induction bonds with
  | nil =>
    intro st
    exact ⟨[], by simp, by simp, by simp, by simp, fun hh => hh⟩
  | cons b bs ih =>
    intro st
    rw [List.foldl_cons]
    obtain ⟨X, hX1, hX2, hX3, hX4, hX5⟩ := fieldScanStep_struct mh cur h st b
    obtain ⟨add', h1, h2, h3, h4, h5⟩ := ih (fieldScanStep mh cur h st b)
    refine ⟨X ++ add', ?_, ?_, ?_, ?_, fun hnd => h5 (hX5 hnd)⟩
    · rw [h1, hX1, List.append_assoc]
    · rw [h2, hX2, List.append_assoc]
    · intro q hq
      rcases List.mem_append.mp hq with hqX | hqA
      · exact hX3 q hqX
      · obtain ⟨hq2, hqmh, hqv⟩ := h3 q hqA
        rw [hX1, visitedHas_append, Bool.or_eq_false_iff] at hqv
        exact ⟨hq2, hqmh, hqv.1⟩
    · rw [List.map_append]
      apply List.Nodup.append hX4 h4
      intro z hzX hzA
      obtain ⟨qX, hqX, hzX'⟩ := List.mem_map.mp hzX
      obtain ⟨qA, hqA, hzA'⟩ := List.mem_map.mp hzA
      have hfalse := (h3 qA hqA).2.2
      rw [hX1, visitedHas_append, Bool.or_eq_false_iff] at hfalse
      have : visitedHas X qA.1 = true :=
        (visitedHas_iff X qA.1).mpr (List.mem_map.mpr ⟨qX, hqX, hzX'.trans hzA'.symm⟩)
      rw [hfalse.2] at this
      exact absurd this (by simp)

/-- The nodes list of the outer loop only ever grows by appending. -/
theorem getFieldAux_nodes_mono (db : FieldDb) (origin : String) (mh : Nat) :
    ∀ (fuel : Nat) (queue visited : List (String × Nat)) (nodes : List FieldNode)
      (edges : List FieldEdge),
      ∃ tail, (getFieldAux db origin mh fuel queue visited nodes edges).1 = nodes ++ tail := by
  intro fuel
  induction fuel with
  | zero =>
    intro queue visited nodes edges
    cases queue with
    | nil => exact ⟨[], by simp [getFieldAux]⟩
    | cons q rest => exact ⟨[], by simp [getFieldAux]⟩
  | succ f ih =>
    intro queue visited nodes edges
    cases queue with
    | nil => exact ⟨[], by simp [getFieldAux]⟩
    | cons head rest =>
      obtain ⟨cur, hops⟩ := head
      simp only [getFieldAux]
      by_cases hlt : mh < hops
      · rw [if_pos hlt]
        exact ih rest visited nodes edges
      · rw [if_neg hlt]
        cases hfind : db.members.find? (fun m => m.helios_id == cur) with
        | none =>
          dsimp only
          exact ih _ _ _ _
        | some member =>
          dsimp only
          obtain ⟨tail, htail⟩ := ih _ _ _ _
          exact ⟨_, htail.trans (List.append_assoc nodes _ tail)⟩

/-- Main invariant of the outer loop of get_field: if the listed node ids
together with the queued ids are duplicate-free, everything listed or queued is
already marked visited, edge keys are duplicate-free, and every listed node
carries the decayed weight of its recorded hop within range, then the final
node list has duplicate-free ids, the final edge keys are duplicate-free, and
every final node is within `max_hops` with weight `1 / decay_base ^ hops`
(hop 0 → weight 1). -/
theorem getFieldAux_inv (db : FieldDb) (origin : String) (mh : Nat) :
    ∀ (fuel : Nat) (queue visited : List (String × Nat)) (nodes : List FieldNode)
      (edges : List FieldEdge),
      (nodes.map FieldNode.id ++ queue.map Prod.fst).Nodup →
      (∀ x ∈ nodes.map FieldNode.id ++ queue.map Prod.fst, visitedHas visited x = true) →
      (edges.map (fun e => e.key)).Nodup →
      (∀ n ∈ nodes, n.hops ≤ mh ∧
        n.energy_weight =
          if 0 < n.hops then 1 / (PROPAGATION_DECAY_BASE : ℚ) ^ n.hops else 1) →
      ((getFieldAux db origin mh fuel queue visited nodes edges).1.map FieldNode.id).Nodup ∧
      ((getFieldAux db origin mh fuel queue visited nodes edges).2.map
        (fun e => e.key)).Nodup ∧
      (∀ n ∈ (getFieldAux db origin mh fuel queue visited nodes edges).1,
        n.hops ≤ mh ∧
        n.energy_weight =
          if 0 < n.hops then 1 / (PROPAGATION_DECAY_BASE : ℚ) ^ n.hops else 1) := by
  intro fuel
  induction fuel with
  | zero =>
    intro queue visited nodes edges hA hB hC hD
    cases queue with
    | nil =>
      simp only [getFieldAux]
      exact ⟨by simpa using hA, hC, hD⟩
    | cons q rest =>
      simp only [getFieldAux]
      exact ⟨(List.nodup_append.mp hA).1, hC, hD⟩
  | succ f ih =>
    intro queue visited nodes edges hA hB hC hD
    cases queue with
    | nil =>
      simp only [getFieldAux]
      exact ⟨by simpa using hA, hC, hD⟩
    | cons head rest =>
      obtain ⟨cur, hops⟩ := head
      simp only [getFieldAux]
      by_cases hlt : mh < hops
      · rw [if_pos hlt]
        apply ih rest visited nodes edges ?_ ?_ hC hD
        · exact List.Nodup.sublist
            (List.Sublist.append_left (List.Sublist.cons _ (List.Sublist.refl _)) _) hA
        · intro x hx
          apply hB
          simp only [List.map_cons, List.mem_append, List.mem_cons] at hx ⊢
          tauto
      · rw [if_neg hlt]
        obtain ⟨add, hv, hq, hfresh, hnodupadd, hedges⟩ :=
          fieldScan_struct mh cur hops (activeBondsOf db cur) ⟨visited, [], edges⟩
        dsimp only at hv hq hfresh hedges
        rw [List.nil_append] at hq
        have hdisj : ∀ y, y ∈ nodes.map FieldNode.id ++ cur :: rest.map Prod.fst →
            y ∈ add.map Prod.fst → False := by
          intro y hy hyadd
          have h1 : visitedHas visited y = true := hB y (by simpa using hy)
          obtain ⟨q, hqmem, rfl⟩ := List.mem_map.mp hyadd
          have h2 := (hfresh q hqmem).2.2
          rw [h1] at h2
          exact absurd h2 (by simp)
        cases hfind : db.members.find? (fun m => m.helios_id == cur) with
        | none =>
          dsimp only
          rw [hv, hq]
          apply ih (rest ++ add) (visited ++ add) nodes _ ?_ ?_ (hedges hC) hD
          · rw [List.map_append, ← List.append_assoc]
            apply List.Nodup.append ?_ hnodupadd ?_
            · exact List.Nodup.sublist
                (List.Sublist.append_left (List.Sublist.cons _ (List.Sublist.refl _)) _) hA
            · intro y hy hy2
              refine hdisj y ?_ hy2
              simp only [List.mem_append, List.mem_cons] at hy ⊢
              tauto
          · intro x hx
            rw [visitedHas_append, Bool.or_eq_true]
            rw [List.map_append, ← List.append_assoc, List.mem_append] at hx
            rcases hx with hx | hx
            · refine Or.inl (hB x ?_)
              simp only [List.mem_append, List.mem_cons] at hx ⊢
              tauto
            · exact Or.inr ((visitedHas_iff add x).mpr hx)
        | some member =>
          dsimp only
          rw [hv, hq]
          apply ih (rest ++ add) (visited ++ add) _ _ ?_ ?_ (hedges hC) ?_
          · simp only [List.map_append, List.map_cons, List.map_nil,
              List.append_assoc, List.singleton_append, List.cons_append,
              List.nil_append]
            have hsh : nodes.map FieldNode.id ++ cur :: (rest.map Prod.fst ++ add.map Prod.fst) =
                (nodes.map FieldNode.id ++ cur :: rest.map Prod.fst) ++ add.map Prod.fst := by
              simp [List.append_assoc]
            rw [hsh]
            exact List.Nodup.append hA hnodupadd (fun y hy hy2 => hdisj y hy hy2)
          · intro x hx
            rw [visitedHas_append, Bool.or_eq_true]
            by_cases hxadd : x ∈ add.map Prod.fst
            · exact Or.inr ((visitedHas_iff add x).mpr hxadd)
            · refine Or.inl (hB x ?_)
              simp only [List.map_append, List.map_cons, List.map_nil,
                List.mem_append, List.mem_cons, List.mem_singleton,
                List.not_mem_nil, or_false] at hx ⊢
              tauto
          · intro n hn
            rcases List.mem_append.mp hn with hn | hn
            · exact hD n hn
            · rw [List.mem_singleton] at hn
              subst hn
              exact ⟨Nat.le_of_not_lt hlt, rfl⟩

/-- C7: get_field over any graph of ACTIVE bonds lists each node at most once
(node ids are duplicate-free), with a deduplicated edge set, and every listed
node is within `max_hops` and carries `energy_weight = 1 / decay_base ^ hops`
with hop 0 mapped to weight 1; when the origin is a registered member the
origin heads the node list at hop 0 with weight 1 and `is_origin` set; and an
origin with zero ACTIVE bonds yields exactly the origin entry and no edges. -/
theorem claim_C7 :
    (∀ (db : FieldDb) (origin : String) (mh : Nat),
      ((FieldEngine.get_field db origin mh).nodes.map FieldNode.id).Nodup ∧
      ((FieldEngine.get_field db origin mh).edges.map (fun e => e.key)).Nodup ∧
      (∀ n ∈ (FieldEngine.get_field db origin mh).nodes,
        n.hops ≤ mh ∧
        n.energy_weight =
          if 0 < n.hops then 1 / (PROPAGATION_DECAY_BASE : ℚ) ^ n.hops else 1)) ∧
    (∀ (db : FieldDb) (origin : String) (mh : Nat) (member : Member),
      db.members.find? (fun m => m.helios_id == origin) = some member →
      (FieldEngine.get_field db origin mh).nodes.head? = some
        { id := origin
          hops := 0
          node_state := member.node_state
          bond_count := member.bond_count
          activity := db.activityScore origin
          is_origin := true
          energy_weight := 1 }) ∧
    (∀ (db : FieldDb) (origin : String) (mh : Nat) (member : Member),
      db.members.find? (fun m => m.helios_id == origin) = some member →
      activeBondsOf db origin = [] →
      (FieldEngine.get_field db origin mh).nodes =
        [{ id := origin
           hops := 0
           node_state := member.node_state
           bond_count := member.bond_count
           activity := db.activityScore origin
           is_origin := true
           energy_weight := 1 }] ∧
      (FieldEngine.get_field db origin mh).edges = []) := by
  refine ⟨?_, ?_, ?_⟩
  · intro db origin mh
    unfold FieldEngine.get_field
    dsimp only
    exact getFieldAux_inv db origin mh _ [(origin, 0)] [(origin, 0)] [] []
      (by simp) (by intro x hx; simp at hx; simp [hx, visitedHas]) (by simp)
      (by simp)
  · intro db origin mh member hfind
    unfold FieldEngine.get_field
    dsimp only
    show (getFieldAux db origin mh (2 * (universeIds db).length + 1 + 1)
      [(origin, 0)] [(origin, 0)] [] []).1.head? = _
    simp only [getFieldAux]
    rw [if_neg (Nat.not_lt_zero mh)]
    rw [hfind]
    dsimp only
    have hmono := getFieldAux_nodes_mono db origin mh
      (2 * (universeIds db).length + 1)
    obtain ⟨tail, htail⟩ := hmono _ _ _ _
    rw [htail]
    simp
  · intro db origin mh member hfind hb
    unfold FieldEngine.get_field
    dsimp only
    refine ⟨?_, ?_⟩ <;>
    · show _ = _
      rw [show 2 * (universeIds db).length + 2 =
        2 * (universeIds db).length + 1 + 1 from rfl]
      simp only [getFieldAux]
      rw [if_neg (Nat.not_lt_zero mh)]
      rw [hfind, hb]
      dsimp only [List.foldl]
      simp [getFieldAux]

/-- Witness for C7 at the isolated single-member database: get_field returns
exactly the origin entry at hop 0 with weight 1 and no edges. -/
theorem claim_C7_witness :
    (FieldEngine.get_field isolatedDb "O" 15).nodes =
      [{ id := "O"
         hops := 0
         node_state := "instantiated"
         bond_count := 0
         activity := 50
         is_origin := true
         energy_weight := 1 }] ∧
    (FieldEngine.get_field isolatedDb "O" 15).edges = [] :=
  claim_C7.2.2 isolatedDb "O" 15 (mkMember "O" 0 "instantiated") (by rfl) (by rfl)

end Helios
